import Mathlib

/-!
Verification development for the openclaw-telegram-archive backend.

The Python services under `backend/app` are shallowly embedded as executable
Lean definitions: strings are lists of characters, Python `int` is `Int`,
`datetime`/`date` values are civil dates (time of day never influences the
embedded code paths, which only use `.date()`, `.year` and whole-day shifts),
and fallible code returns `Option`/`Except`.  Python string methods are
modelled over the ASCII whitespace set and ASCII case mapping, which covers
every string the services manipulate.
-/

namespace Archive

abbrev Str := List Char

/-- ASCII whitespace, the characters Python `str.strip` and `\s` remove in the
inputs handled by the services. -/
def isPySpace (c : Char) : Bool :=
  c = ' ' || c = '\t' || c = '\n' || c = '\r' || c = '\x0b' || c = '\x0c'

def isAsciiDigit (c : Char) : Bool :=
  '0' ≤ c && c ≤ '9'

/-- Python `str.lower` restricted to ASCII letters. -/
def lowerChar (c : Char) : Char :=
  if 'A' ≤ c && c ≤ 'Z' then Char.ofNat (c.toNat + 32) else c

def pyLower (cs : Str) : Str := cs.map lowerChar

/-- Python `str.strip()`. -/
def pyStrip (cs : Str) : Str :=
  ((cs.dropWhile isPySpace).reverse.dropWhile isPySpace).reverse

/-- Python `str.rstrip()`. -/
def pyRstrip (cs : Str) : Str :=
  (cs.reverse.dropWhile isPySpace).reverse

/-- Single pass of run collapsing; `inRun` records whether the previous
character was part of a run. -/
def collapseRunsGo (p : Char → Bool) (r : Char) : Bool → Str → Str
  | _, [] => []
  | inRun, c :: rest =>
    if p c then
      if inRun then collapseRunsGo p r true rest
      else r :: collapseRunsGo p r true rest
    else c :: collapseRunsGo p r false rest

/-- `re.sub(p-run, r, s)`: collapse every maximal run of characters
satisfying `p` to the single character `r`. -/
def collapseRuns (p : Char → Bool) (r : Char) (cs : Str) : Str :=
  collapseRunsGo p r false cs

/-- `re.sub(r"\s+", " ", s)`. -/
def collapseWs : Str → Str := collapseRuns isPySpace ' '

/-- `rule_engine._normalize_tag_key`: `re.sub(r"\s+", " ", value.strip().lower())`. -/
def normalize_tag_key (cs : Str) : Str :=
  collapseWs (pyLower (pyStrip cs))

/-- Split a list at every occurrence of a separator character (Python
`str.split(sep)` for a one-character separator). -/
def splitOnChar (sep : Char) : Str → List Str
  | [] => [[]]
  | c :: rest =>
    let r := splitOnChar sep rest
    if c = sep then [] :: r
    else match r with
      | [] => [[c]]
      | h :: t => (c :: h) :: t

/-- Fuel-driven core of `replaceAll`; the fuel is the input length, which
bounds the number of steps since each step consumes at least one character. -/
def replaceAllGo (pat repl : Str) : Nat → Str → Str
  | _, [] => []
  | 0, cs => cs
  | fuel + 1, c :: rest =>
    if pat ≠ [] ∧ pat.isPrefixOf (c :: rest) then
      repl ++ replaceAllGo pat repl fuel (rest.drop (pat.length - 1))
    else
      c :: replaceAllGo pat repl fuel rest

/-- Left-to-right, non-overlapping `str.replace(pat, repl)` for a non-empty
pattern. -/
def replaceAll (pat repl cs : Str) : Str :=
  replaceAllGo pat repl cs.length cs

/-- Substring test (`pat in s` in Python). -/
def containsSub (hay pat : Str) : Bool :=
  (List.range (hay.length + 1)).any (fun i => pat.isPrefixOf (hay.drop i))

def strOf (s : String) : Str := s.data

/-- `sep.join(parts)`. -/
def joinWith (sep : Str) : List Str → Str
  | [] => []
  | [x] => x
  | x :: y :: xs => x ++ sep ++ joinWith sep (y :: xs)

/-! ## Civil dates

Python `datetime.date` values: a civil triple with validity, a rata-die
conversion for day arithmetic (`timedelta(days=n)`), and calendar order. -/

structure PDate where
  year : Int
  month : Int
  day : Int
deriving DecidableEq, Repr

def isLeap (y : Int) : Bool :=
  y % 4 = 0 && (y % 100 ≠ 0 || y % 400 = 0)

def days_in_month (y m : Int) : Int :=
  if m = 2 then (if isLeap y then 29 else 28)
  else if m = 4 ∨ m = 6 ∨ m = 9 ∨ m = 11 then 30
  else 31

/-- `datetime.date(y, m, d)` succeeds exactly on these triples. -/
def isValidDate (y m d : Int) : Bool :=
  1 ≤ y && y ≤ 9999 && 1 ≤ m && m ≤ 12 && 1 ≤ d && d ≤ days_in_month y m

/-- `date_parser._safe_date`: build a date, `none` on `ValueError`. -/
def safe_date (y m d : Int) : Option PDate :=
  if isValidDate y m d then some ⟨y, m, d⟩ else none

/-- Days since 1970-01-01 (proleptic Gregorian). -/
def toRD (dt : PDate) : Int :=
  let y := if dt.month ≤ 2 then dt.year - 1 else dt.year
  let era := y.fdiv 400
  let yoe := y - era * 400
  let mp := if dt.month > 2 then dt.month - 3 else dt.month + 9
  let doy := (153 * mp + 2).fdiv 5 + dt.day - 1
  let doe := yoe * 365 + yoe.fdiv 4 - yoe.fdiv 100 + doy
  era * 146097 + doe - 719468

/-- Inverse of `toRD`. -/
def fromRD (z0 : Int) : PDate :=
  let z := z0 + 719468
  let era := z.fdiv 146097
  let doe := z - era * 146097
  let yoe := (doe - doe.fdiv 1460 + doe.fdiv 36524 - doe.fdiv 146096).fdiv 365
  let y := yoe + era * 400
  let doy := doe - (365 * yoe + yoe.fdiv 4 - yoe.fdiv 100)
  let mp := (5 * doy + 2).fdiv 153
  let d := doy - (153 * mp + 2).fdiv 5 + 1
  let m := if mp < 10 then mp + 3 else mp - 9
  ⟨if m ≤ 2 then y + 1 else y, m, d⟩

/-- `dt + timedelta(days=n)` projected to the date. -/
def addDays (dt : PDate) (n : Int) : PDate := fromRD (toRD dt + n)

/-- Calendar order of valid dates (lexicographic on the triple). -/
def dateLtB (a b : PDate) : Bool :=
  a.year < b.year ||
    (a.year = b.year && (a.month < b.month ||
      (a.month = b.month && a.day < b.day)))

example : addDays ⟨2026, 2, 24⟩ 365 = ⟨2027, 2, 24⟩ := by decide
example : addDays ⟨2024, 2, 28⟩ 2 = ⟨2024, 3, 1⟩ := by decide
example : addDays ⟨2026, 12, 31⟩ 1 = ⟨2027, 1, 1⟩ := by decide

/-! ## `services/date_parser.py`

The module searches, in priority order, for the first occurrence of
`\d{4}-\d{2}-\d{2}`, `\d{4}\.\d{2}\.\d{2}`, `\d{4}/\d{2}/\d{2}`,
`\d{4}\d{2}\d{2}` and finally `(?<!\d)\d{2}\d{2}\d{2}(?!\d)`.  Every pattern
is fixed-width, so `re.search` semantics reduce to taking the leftmost
position at which the pattern matches.  `\d` is modelled as an ASCII digit. -/

/-- Exactly `n` leading digits; returns their value and the rest. -/
def takeDigits : Nat → Str → Option (Int × Str)
  | 0, cs => some (0, cs)
  | _ + 1, [] => none
  | n + 1, c :: cs =>
    if isAsciiDigit c then
      match takeDigits n cs with
      | some (v, rest) => some ((c.toNat - '0'.toNat : Nat) * (10 ^ n : Nat) + v, rest)
      | none => none
    else none

/-- Match `\d{4}sep\d{2}sep\d{2}` at the head of the list. -/
def matchSepDateAt (sep : Char) (cs : Str) : Option (Int × Int × Int) := do
  let (y, r1) ← takeDigits 4 cs
  match r1 with
  | c :: r2 =>
    if c = sep then do
      let (m, r3) ← takeDigits 2 r2
      match r3 with
      | c2 :: r4 =>
        if c2 = sep then do
          let (d, _) ← takeDigits 2 r4
          pure (y, m, d)
        else none
      | [] => none
    else none
  | [] => none

/-- Match `\d{4}\d{2}\d{2}` (eight consecutive digits) at the head. -/
def matchCompactDateAt (cs : Str) : Option (Int × Int × Int) := do
  let (y, r1) ← takeDigits 4 cs
  let (m, r2) ← takeDigits 2 r1
  let (d, _) ← takeDigits 2 r2
  pure (y, m, d)

/-- Match `(?<!\d)\d{2}\d{2}\d{2}(?!\d)` at the head, given whether the
previous character is a digit. -/
def matchYYMMDDAt (prevDigit : Bool) (cs : Str) : Option (Int × Int × Int) :=
  if prevDigit then none
  else
    match takeDigits 2 cs with
    | none => none
    | some (y, r1) =>
      match takeDigits 2 r1 with
      | none => none
      | some (m, r2) =>
        match takeDigits 2 r2 with
        | none => none
        | some (d, r3) =>
          match r3 with
          | c :: _ => if isAsciiDigit c then none else some (y, m, d)
          | [] => some (y, m, d)

/-- Leftmost match of a head matcher (the `re.search` of a fixed-width
pattern without lookarounds). -/
def searchAt (f : Str → Option (Int × Int × Int)) : Str → Option (Int × Int × Int)
  | [] => f []
  | c :: rest =>
    match f (c :: rest) with
    | some r => some r
    | none => searchAt f rest

/-- Leftmost match of the two-digit pattern, threading the lookbehind. -/
def searchYY (prevDigit : Bool) : Str → Option (Int × Int × Int)
  | [] => matchYYMMDDAt prevDigit []
  | c :: rest =>
    match matchYYMMDDAt prevDigit (c :: rest) with
    | some r => some r
    | none => searchYY (isAsciiDigit c) rest

/-- `date_parser._infer_century`.  `ingested_at` is carried as its civil
date; `(ingested_at + timedelta(days=365)).date()` is `addDays` by 365. -/
def infer_century (two_digit_year : Int) (ingested_at : PDate) : Int :=
  let base := ingested_at.year % 100
  let year := if two_digit_year ≤ base + 1 then 2000 + two_digit_year
              else 1900 + two_digit_year
  let candidate : PDate := ⟨year, 1, 1⟩
  if dateLtB (addDays ingested_at 365) candidate then year - 100 else year

/-- The first four patterns of `date_parser._PATTERNS`, in source order. -/
def fourDigitSearches (text : Str) : List (Option (Int × Int × Int)) :=
  [ searchAt (matchSepDateAt '-') text
  , searchAt (matchSepDateAt '.') text
  , searchAt (matchSepDateAt '/') text
  , searchAt matchCompactDateAt text ]

/-- `date_parser.parse_event_date_from_text`.  A `none`/empty text is falsy.
For each pattern only the leftmost match is tried (exactly as the source,
which takes `pattern.search` once and moves to the next pattern if the
matched triple is not a valid calendar date). -/
def parse_event_date_from_text (text : Option Str) (ingested_at : PDate) : Option PDate :=
  match text with
  | none => none
  | some t =>
    if t = [] then none
    else
      let viaFour := (fourDigitSearches t).findSome? (fun r =>
        match r with
        | some (y, m, d) => safe_date y m d
        | none => none)
      match viaFour with
      | some d => some d
      | none =>
        match searchYY false t with
        | some (y, m, d) => safe_date (infer_century y ingested_at) m d
        | none => none

example :
    parse_event_date_from_text (some (strOf "2026-02-24")) ⟨2026, 2, 24⟩ =
      some ⟨2026, 2, 24⟩ := by decide
example :
    parse_event_date_from_text (some (strOf "2026.02.24")) ⟨2026, 2, 24⟩ =
      some ⟨2026, 2, 24⟩ := by decide
example :
    parse_event_date_from_text (some (strOf "20260224")) ⟨2026, 2, 24⟩ =
      some ⟨2026, 2, 24⟩ := by decide
example :
    parse_event_date_from_text (some (strOf "260224")) ⟨2026, 2, 24⟩ =
      some ⟨2026, 2, 24⟩ := by decide
example :
    parse_event_date_from_text (some (strOf "990101")) ⟨2026, 2, 24⟩ =
      some ⟨1999, 1, 1⟩ := by decide
example :
    parse_event_date_from_text (some (strOf "회의록 2026/02/24 정리")) ⟨2026, 2, 24⟩ =
      some ⟨2026, 2, 24⟩ := by decide
example :
    parse_event_date_from_text (some (strOf "no date here")) ⟨2026, 2, 24⟩ = none := by decide

/-! ## `services/caption_parser.py` -/

structure CaptionParseResult where
  title : Str
  description : Str
  caption_raw : Str
  explicit_category : Option Str
  explicit_date : Option Str
  explicit_tags : List Str
deriving DecidableEq, Repr

/-- Python `str.splitlines` restricted to the `\n`, `\r` and `\r\n` breaks
that occur in the service inputs (no trailing empty line). -/
def splitLinesGo (acc : Str) : Str → List Str
  | [] => if acc = [] then [] else [acc.reverse]
  | '\r' :: '\n' :: rest => acc.reverse :: splitLinesGo [] rest
  | '\r' :: rest => acc.reverse :: splitLinesGo [] rest
  | '\n' :: rest => acc.reverse :: splitLinesGo [] rest
  | c :: rest => splitLinesGo (c :: acc) rest

def splitLines (cs : Str) : List Str := splitLinesGo [] cs

/-- Everything after the last occurrence of `c` (`s.rsplit(c, 1)[-1]`). -/
def afterLast (c : Char) (cs : Str) : Str :=
  (splitOnChar c cs).getLastD []

/-- `caption_parser.sanitize_filename`. -/
def sanitize_filename (filename : Str) : Str :=
  let name := afterLast '\\' (afterLast '/' filename)
  let stem :=
    if '.' ∈ name then joinWith (strOf ".") ((splitOnChar '.' name).dropLast)
    else name
  let stem := collapseRuns (fun c => c = '_' || c = '-') ' ' stem
  let stem := pyStrip (collapseWs stem)
  if stem = [] then strOf "Untitled" else stem

example : sanitize_filename (strOf "20260224_report_final.pdf") =
    strOf "20260224 report final" := by decide
example : sanitize_filename (strOf "a/b\\c-d_e.tar.gz") = strOf "c d e.tar" := by decide
example : sanitize_filename (strOf "___.pdf") = strOf "Untitled" := by decide

/-- `caption_parser._normalize_caption_text`. -/
def normalize_caption_text (caption : Str) : Str :=
  if ¬ ('\n' ∈ caption) ∧ containsSub caption (strOf "\\n") then
    replaceAll (strOf "\\n") (strOf "\n")
      (replaceAll (strOf "\\r\\n") (strOf "\n") caption)
  else caption

/-- Match `^#<kw>\s*:\s*(.+)$` against an already-stripped line, returning
the captured group. -/
def matchMetaLine (kw : Str) (s : Str) : Option Str :=
  if kw.isPrefixOf s then
    match (s.drop kw.length).dropWhile isPySpace with
    | ':' :: r2 =>
      let v := r2.dropWhile isPySpace
      if v = [] then none else some v
    | _ => none
  else none

def matchCategoryLine (s : Str) : Option Str := matchMetaLine (strOf "#분류") s
def matchDateLine (s : Str) : Option Str := matchMetaLine (strOf "#날짜") s
def matchTagsLine (s : Str) : Option Str := matchMetaLine (strOf "#태그") s

/-- `[t.strip() for t in v.split(",") if t.strip()]`. -/
def splitTagValues (v : Str) : List Str :=
  ((splitOnChar ',' v).map pyStrip).filter (· ≠ [])

/-- The title and metadata body lines that `parse_caption` computes before
its extraction loop. -/
def captionTitleAndBody (caption : Option Str) (filename : Str) : Str × List Str :=
  match caption with
  | some c =>
    if pyStrip c ≠ [] then
      let normalized := normalize_caption_text c
      let lines := (splitLines normalized).map pyRstrip
      let nonEmpty := lines.filter (fun l => pyStrip l ≠ [])
      match nonEmpty with
      | [] => (sanitize_filename filename, [])
      | h :: t => (pyStrip h, t)
    else (sanitize_filename filename, [])
  | none => (sanitize_filename filename, [])

/-- The body of the extraction loop of `parse_caption`: state is
(category, date, tags, cleaned description lines). -/
def captionMetaStep (st : Option Str × Option Str × List Str × List Str) (line : Str) :
    Option Str × Option Str × List Str × List Str :=
  let (cat, dt, tags, desc) := st
  let s := pyStrip line
  match matchCategoryLine s with
  | some v => (some (pyStrip v), dt, tags, desc)
  | none =>
    match matchDateLine s with
    | some v => (cat, some (pyStrip v), tags, desc)
    | none =>
      match matchTagsLine s with
      | some v => (cat, dt, splitTagValues v, desc)
      | none => (cat, dt, tags, desc ++ [line])

/-- `caption_parser.parse_caption`. -/
def parse_caption (caption : Option Str) (filename : Str) : CaptionParseResult :=
  let st := (captionTitleAndBody caption filename).2.foldl captionMetaStep
    (none, none, [], [])
  { title := (captionTitleAndBody caption filename).1
    description := pyStrip (joinWith (strOf "\n") st.2.2.2)
    caption_raw := caption.getD []
    explicit_category := st.1
    explicit_date := st.2.1
    explicit_tags := st.2.2.1 }

example :
    parse_caption (some (strOf "주간 회의\n진행상황 공유\n#분류:회의\n#날짜:2026-02-24\n#태그:alpha,beta"))
      (strOf "a.pdf") =
    { title := strOf "주간 회의"
      description := strOf "진행상황 공유"
      caption_raw := strOf "주간 회의\n진행상황 공유\n#분류:회의\n#날짜:2026-02-24\n#태그:alpha,beta"
      explicit_category := some (strOf "회의")
      explicit_date := some (strOf "2026-02-24")
      explicit_tags := [strOf "alpha", strOf "beta"] } := by decide

example :
    parse_caption none (strOf "20260224_report_final.pdf") =
    { title := strOf "20260224 report final"
      description := []
      caption_raw := []
      explicit_category := none
      explicit_date := none
      explicit_tags := [] } := by decide

example :
    (parse_caption (some (strOf "문서 제목\\n설명 1\\n#분류:회의\\n#날짜:2026-02-24"))
      (strOf "x.pdf")).explicit_category = some (strOf "회의") := by decide

/-! ## `services/archive_set_parser.py`

Only the functions reached from the rule engine are embedded:
`extract_structured_tag_map`, `extract_revision_from_title`,
`_normalize_value` and `infer_structured_tags`.  Regex `\w` is modelled as
ASCII alphanumerics, underscore and Hangul syllables, the alphabet of every
string the services handle. -/

def isAsciiLower (c : Char) : Bool := 'a' ≤ c && c ≤ 'z'
def isAsciiUpper (c : Char) : Bool := 'A' ≤ c && c ≤ 'Z'
def isHangul (c : Char) : Bool := '가' ≤ c && c ≤ '힣'

def isWordChar (c : Char) : Bool :=
  isAsciiDigit c || isAsciiLower c || isAsciiUpper c || c = '_' || isHangul c

/-- `re.search(r"\b<pat>\b", hay)` for a pattern made of word characters:
some position has a non-word (or start) on its left, the pattern, and a
non-word (or end) after it. -/
def hasWordSubGo (pat : Str) (prevWord : Bool) : Str → Bool
  | [] => false
  | c :: rest =>
    (!prevWord && pat.isPrefixOf (c :: rest) &&
      (match (c :: rest).drop pat.length with
       | [] => true
       | d :: _ => !isWordChar d)) ||
    hasWordSubGo pat (isWordChar c) rest

def hasWordSub (pat hay : Str) : Bool := hasWordSubGo pat false hay

inductive RePat where
  | word (w : Str)
  | plain (w : Str)
deriving Repr

def rePatMatches (hay : Str) : RePat → Bool
  | .word w => hasWordSub w hay
  | .plain w => containsSub hay w

/-- `archive_set_parser._SET_RULES`. -/
def SET_RULES : List (Str × Str × List RePat) :=
  [ (strOf "dcp", strOf "document-control-procedure",
      [.word (strOf "dcp"), .plain (strOf "document control procedure")])
  , (strOf "general-arrangement-drawing", strOf "general-arrangement-drawing",
      [.plain (strOf "general arrangement drawing"), .word (strOf "gad")]) ]

/-- `archive_set_parser._KIND_RULES`. -/
def KIND_RULES : List (Str × List RePat) :=
  [ (strOf "manual", [.word (strOf "manual"), .plain (strOf "매뉴얼")])
  , (strOf "guide", [.word (strOf "guide"), .plain (strOf "이용 방법"),
      .plain (strOf "문서 교환 시스템 소개")])
  , (strOf "account-list", [.plain (strOf "account list"), .plain (strOf "계정 리스트"),
      .plain (strOf "necessaryinformation")])
  , (strOf "drawing", [.word (strOf "drawing"), .plain (strOf "도면")])
  , (strOf "main", [.word (strOf "procedure"), .plain (strOf "절차")]) ]

/-- `archive_set_parser._LANG_RULES`. -/
def LANG_RULES : List (Str × List RePat) :=
  [ (strOf "ko", [.plain (strOf "한글"), .plain (strOf "국문"), .plain (strOf "korean")])
  , (strOf "en", [.plain (strOf "영문"), .plain (strOf "english")]) ]

/-- Split at the first occurrence of `sep` (`s.split(sep, maxsplit=1)` when
the separator occurs). -/
def splitFirst (sep : Char) : Str → Option (Str × Str)
  | [] => none
  | c :: rest =>
    if c = sep then some ([], rest)
    else match splitFirst sep rest with
      | some (a, b) => some (c :: a, b)
      | none => none

/-- Association-list lookup used for the Python dicts built by the tag-map
extractors (insertions are always guarded by absence, so the first binding
is the binding). -/
def lookupA (k : Str) (m : List (Str × Str)) : Option Str :=
  (m.find? (fun p => p.1 = k)).map (·.2)

/-- `archive_set_parser.extract_structured_tag_map`. -/
def extract_structured_tag_map (tags : List Str) : List (Str × Str) :=
  tags.foldl (fun m raw =>
    let tag := pyStrip raw
    match splitFirst ':' tag with
    | none => m
    | some (k0, v0) =>
      let key := pyLower (pyStrip k0)
      let value := pyStrip v0
      if value = [] then m
      else if (key = strOf "set" || key = strOf "dockey" || key = strOf "rev" ||
               key = strOf "kind" || key = strOf "lang") && (lookupA key m).isNone then
        m ++ [(key, value)]
      else m) []

/-- Characters of the captured group `[a-z0-9\-_]` under `(?i)`. -/
def isRevCaptChar (c : Char) : Bool :=
  isAsciiDigit c || isAsciiLower c || isAsciiUpper c || c = '-' || c = '_'

/-- Case-insensitive literal prefix test (ASCII folding). -/
def ciPrefix (pat : Str) (cs : Str) : Bool :=
  pat.isPrefixOf (pyLower (cs.take pat.length))

/-- Word-ness of the character at the head of a list (end of string counts
as non-word). -/
def headIsWord : Str → Bool
  | [] => false
  | c :: _ => isWordChar c

/-- Greedy capture of `([a-z0-9\-_]+)\b`: the longest non-empty prefix of
class characters after which a word boundary holds (regex backtracking
shrinks the group from the right). -/
def revCapture (cs : Str) : Option Str :=
  let run := cs.takeWhile isRevCaptChar
  let after := cs.drop run.length
  let boundary := fun (k : Nat) =>
    (match run.get? (k - 1) with
     | some c => isWordChar c
     | none => false) ≠
    (match run.get? k with
     | some c => isWordChar c
     | none => headIsWord after)
  match (List.range run.length).reverse.find? (fun i => decide (boundary (i + 1))) with
  | some i => some (run.take (i + 1))
  | none => none

/-- The tail of `_REV_PATTERN` after `rev`: `(?:ision)?\.?\s*([a-z0-9\-_]+)\b`,
with the greedy-then-backtrack choice on `ision`. -/
def revTail (rest : Str) : Option Str :=
  let viaDot := fun (r : Str) =>
    let r1 := match r with
      | '.' :: t => t
      | t => t
    revCapture (r1.dropWhile isPySpace)
  match (if ciPrefix (strOf "ision") rest then viaDot (rest.drop 5) else none) with
  | some g => some g
  | none => viaDot rest

/-- Leftmost match of `(?i)\brev(?:ision)?\.?\s*([a-z0-9\-_]+)\b`,
returning the captured group. -/
def searchRevGo (prevWord : Bool) : Str → Option Str
  | [] => none
  | c :: rest =>
    match (if !prevWord && ciPrefix (strOf "rev") (c :: rest) then
             revTail ((c :: rest).drop 3)
           else none) with
    | some g => some g
    | none => searchRevGo (isWordChar c) rest

/-- `archive_set_parser.extract_revision_from_title`. -/
def extract_revision_from_title (title : Str) : Option Str :=
  searchRevGo false title

example : extract_revision_from_title (strOf "Document Control Procedure rev.2") =
    some (strOf "2") := by decide
example : extract_revision_from_title (strOf "DCP Revision 10 final") =
    some (strOf "10") := by decide
example : extract_revision_from_title (strOf "revision") = some (strOf "ision") := by decide
example : extract_revision_from_title (strOf "no marker") = none := by decide

/-- Strip a specific character from both ends (`str.strip("-")`). -/
def stripChar (ch : Char) (cs : Str) : Str :=
  ((cs.dropWhile (· = ch)).reverse.dropWhile (· = ch)).reverse

/-- `archive_set_parser._normalize_value`. -/
def normalizeRevValue (v : Str) : Str :=
  let lowered := collapseWs (pyLower (pyStrip v))
  stripChar '-' (collapseRuns (fun c => !(isAsciiDigit c || isAsciiLower c)) '-' lowered)

/-- `archive_set_parser.infer_structured_tags`. -/
def infer_structured_tags (title description filename : Str)
    (existing_tags : List Str) : List Str :=
  let existing := extract_structured_tag_map existing_tags
  let merged := pyLower (title ++ [' '] ++ description ++ [' '] ++ filename)
  let hasKey := fun (m : List (Str × Str)) (k : String) => (lookupA (strOf k) m).isSome
  -- set / dockey block
  let (inferred, existing) :=
    if !(hasKey existing "set") || !(hasKey existing "dockey") then
      match SET_RULES.find? (fun r => r.2.2.any (rePatMatches merged)) with
      | some (s, k, _) =>
        let (acc, ex) :=
          if !(hasKey existing "set") then
            ([strOf "set:" ++ s], existing ++ [(strOf "set", s)])
          else ([], existing)
        if !(hasKey ex "dockey") then
          (acc ++ [strOf "dockey:" ++ k], ex ++ [(strOf "dockey", k)])
        else (acc, ex)
      | none => ([], existing)
    else ([], existing)
  -- rev block
  let (inferred, existing) :=
    if !(hasKey existing "rev") then
      match extract_revision_from_title title with
      | some r =>
        let n := normalizeRevValue r
        if n ≠ [] then (inferred ++ [strOf "rev:" ++ n], existing ++ [(strOf "rev", n)])
        else (inferred, existing)
      | none =>
        match extract_revision_from_title filename with
        | some r =>
          let n := normalizeRevValue r
          if n ≠ [] then (inferred ++ [strOf "rev:" ++ n], existing ++ [(strOf "rev", n)])
          else (inferred, existing)
        | none =>
          if hasWordSub (strOf "draft") merged then
            (inferred ++ [strOf "rev:draft"], existing ++ [(strOf "rev", strOf "draft")])
          else (inferred, existing)
    else (inferred, existing)
  -- kind block
  let (inferred, existing) :=
    if !(hasKey existing "kind") then
      match KIND_RULES.find? (fun r => r.2.any (rePatMatches merged)) with
      | some (k, _) => (inferred ++ [strOf "kind:" ++ k], existing ++ [(strOf "kind", k)])
      | none => (inferred, existing)
    else (inferred, existing)
  -- lang block
  let (inferred, _) :=
    if !(hasKey existing "lang") then
      match LANG_RULES.find? (fun r => r.2.any (rePatMatches merged)) with
      | some (l, _) => (inferred ++ [strOf "lang:" ++ l], existing ++ [(strOf "lang", l)])
      | none => (inferred, existing)
    else (inferred, existing)
  inferred

example :
    infer_structured_tags (strOf "Document Control Procedure rev.2") (strOf "운영 절차")
      (strOf "dcp_rev2.pdf") [] =
    [strOf "set:dcp", strOf "dockey:document-control-procedure", strOf "rev:2",
     strOf "kind:main"] := by decide

/-! ## Rules structure and `services/rule_categories.py`

The rules JSON is embedded as a typed structure holding the values the code
actually reads after its `isinstance` guards: a non-list `category_rules` or
`tag_category_rules` is the empty list, a non-dict entry is dropped, and an
absent or non-string `category`/`default_category` is `none`. -/

structure CategoryRule where
  category : Option Str
  keywords : List (Str × List Str)
  tags : List Str
deriving DecidableEq, Repr

structure TagCategoryRule where
  category : Option Str
  tags : List Str
  matchMode : Str
deriving DecidableEq, Repr

structure Rules where
  default_category : Option Str
  category_rules : List CategoryRule
  tag_category_rules : List TagCategoryRule
deriving Repr

/-- `rule_categories._slugify`: `text.strip().lower().replace(" ", "-")`. -/
def slugify (cs : Str) : Str :=
  (pyLower (pyStrip cs)).map (fun c => if c = ' ' then '-' else c)

/-- `rule_categories.extract_categories_from_rules_json`: every category
mentioned by a keyword rule or a tag rule, then `default_category`,
deduplicated by slug, falling back to `기타` when empty. -/
def extract_categories_from_rules_json (rules : Rules) : List Str :=
  let candidates :=
    rules.category_rules.map (·.category) ++
    rules.tag_category_rules.map (·.category) ++
    [rules.default_category]
  let names := (candidates.foldl (fun (st : List Str × List Str) raw =>
    match raw with
    | none => st
    | some s =>
      let name := pyStrip s
      if name = [] then st
      else
        let key := slugify name
        if key ∈ st.1 then st else (st.1 ++ [key], st.2 ++ [name])) ([], [])).2
  if names = [] then [strOf "기타"] else names

/-! ## `services/rule_engine.py` -/

structure RuleInput where
  caption : CaptionParseResult
  title : Str
  description : Str
  filename : Str
  body_text : Str
  metadata_date_text : Option Str
  ingested_at : PDate
deriving Repr

structure RuleOutput where
  category : Str
  tags : List Str
  event_date : PDate
  review_reasons : List Str
deriving DecidableEq, Repr

def STOPWORDS : List Str :=
  [strOf "the", strOf "and", strOf "for", strOf "with", strOf "from", strOf "this",
   strOf "that", strOf "document", strOf "file", strOf "title", strOf "description",
   strOf "manual", strOf "note", strOf "분류", strOf "날짜", strOf "태그", strOf "문서",
   strOf "파일", strOf "제목", strOf "설명", strOf "작성", strOf "수정", strOf "및",
   strOf "또는", strOf "그리고"]

def KIND_CATEGORY_MAP : List (Str × Str) :=
  [(strOf "manual", strOf "매뉴얼"), (strOf "guide", strOf "가이드"),
   (strOf "account-list", strOf "계정 리스트"), (strOf "drawing", strOf "도면"),
   (strOf "main", strOf "절차")]

def SET_CATEGORY_MAP : List (Str × Str) :=
  [(strOf "dcp", strOf "DCP"),
   (strOf "general-arrangement-drawing", strOf "General Arrangement Drawing")]

def GENERIC_CATEGORY_KEYS : List Str :=
  [strOf "기타", strOf "default", strOf "misc", strOf "unknown",
   strOf "uncategorized", strOf "미분류"]

/-- `rule_engine._match_keywords`. -/
def match_keywords (text : Str) (keywords : List Str) : Bool :=
  keywords.any (fun kw => containsSub (pyLower text) (pyLower kw))

/-- One step of `rule_engine._build_allowed_category_map`: insert a candidate
name under its normalized key unless blank or already present. -/
def allowedInsertStep (m : List (Str × Str)) (raw : Str) : List (Str × Str) :=
  let name := pyStrip raw
  if name = [] then m
  else
    let key := normalize_tag_key name
    if (lookupA key m).isSome then m else m ++ [(key, name)]

/-- `rule_engine._build_allowed_category_map`: normalized key to first
canonical name. -/
def build_allowed_category_map (rules : Rules) : List (Str × Str) :=
  (extract_categories_from_rules_json rules).foldl allowedInsertStep []

/-- `rule_engine._extract_structured_tag_map` (any key allowed, first
occurrence wins). -/
def engineStructuredTagMap (tags : List Str) : List (Str × Str) :=
  tags.foldl (fun m raw =>
    let tag := pyStrip raw
    match splitFirst ':' tag with
    | none => m
    | some (k0, v0) =>
      let key := pyLower (pyStrip k0)
      let value := pyStrip v0
      if key = [] ∨ value = [] ∨ (lookupA key m).isSome then m
      else m ++ [(key, value)]) []

/-- `rule_engine._tag_matches_pattern`. -/
def tag_matches_pattern (tag_values : List Str) (pattern : Str) : Bool :=
  let np := normalize_tag_key pattern
  if np = [] then false
  else if np.getLast? = some '*' then
    let pre := np.dropLast
    if pre = [] then false
    else tag_values.any (fun v => pre.isPrefixOf v)
  else decide (np ∈ tag_values)

/-- `rule_engine._infer_category_from_tag_rules`. -/
def infer_category_from_tag_rules (tags : List Str) (rules : Rules) : Option Str :=
  if rules.tag_category_rules = [] then none
  else
    let normalized_tags := (tags.filter (fun t => pyStrip t ≠ [])).map normalize_tag_key
    if normalized_tags = [] then none
    else
      rules.tag_category_rules.findSome? (fun rule =>
        let category := pyStrip (rule.category.getD [])
        let patterns := (rule.tags.map pyStrip).filter (· ≠ [])
        if category = [] ∨ patterns = [] then none
        else
          let matched :=
            if pyLower (pyStrip rule.matchMode) = strOf "all" then
              patterns.all (tag_matches_pattern normalized_tags)
            else patterns.any (tag_matches_pattern normalized_tags)
          if matched then some category else none)

/-- `re.fullmatch(r"[0-9._/\-]+", tag)`. -/
def isNumericPunct (tag : Str) : Bool :=
  tag ≠ [] && tag.all (fun c =>
    isAsciiDigit c || c = '.' || c = '_' || c = '/' || c = '-')

/-- `rule_engine._choose_plain_tag_as_category`. -/
def choose_plain_tag_as_category (tags : List Str) (default_category : Str) : Option Str :=
  let generic_keys := GENERIC_CATEGORY_KEYS.map normalize_tag_key ++
    [normalize_tag_key default_category]
  tags.findSome? (fun raw =>
    let tag := pyStrip raw
    if tag = [] ∨ ':' ∈ tag then none
    else if normalize_tag_key tag ∈ generic_keys then none
    else if isNumericPunct tag then none
    else some tag)

/-- `rule_engine._infer_category_from_tags`. -/
def infer_category_from_tags (explicit_tags auto_tag_candidates : List Str)
    (rules : Rules) (default_category : Str) (allow_auto_plain_fallback : Bool) :
    Option Str :=
  let ordered_tags := ((explicit_tags ++ auto_tag_candidates).foldl
    (fun (st : List Str × List Str) raw =>
      let tag := pyStrip raw
      if tag = [] then st
      else
        let key := normalize_tag_key tag
        if key ∈ st.1 then st else (st.1 ++ [key], st.2 ++ [tag])) ([], [])).2
  if ordered_tags = [] then none
  else
    match infer_category_from_tag_rules ordered_tags rules with
    | some c => some c
    | none =>
      let structured := engineStructuredTagMap ordered_tags
      let kind := pyLower (pyStrip ((lookupA (strOf "kind") structured).getD []))
      match (if kind ≠ [] then lookupA kind KIND_CATEGORY_MAP else none) with
      | some c => some c
      | none =>
        let setKey := pyLower (pyStrip ((lookupA (strOf "set") structured).getD []))
        match (if setKey ≠ [] then lookupA setKey SET_CATEGORY_MAP else none) with
        | some c => some c
        | none =>
          if allow_auto_plain_fallback then
            choose_plain_tag_as_category ordered_tags default_category
          else none

def isTokenChar (c : Char) : Bool :=
  isAsciiDigit c || isAsciiLower c || isAsciiUpper c || isHangul c

/-- Maximal runs of token characters (`_TOKEN_PATTERN.findall`), keeping
runs of length at least two. -/
def splitRunsGo (p : Char → Bool) (cur : Str) : Str → List Str
  | [] => if cur = [] then [] else [cur.reverse]
  | c :: rest =>
    if p c then splitRunsGo p (c :: cur) rest
    else if cur = [] then splitRunsGo p [] rest
    else cur.reverse :: splitRunsGo p [] rest

def tokenRuns (cs : Str) : List Str :=
  (splitRunsGo isTokenChar [] cs).filter (fun r => 2 ≤ r.length)

def isAsciiStr (cs : Str) : Bool := cs.all (fun c => c.toNat < 128)
def isAllDigits (cs : Str) : Bool := cs ≠ [] && cs.all isAsciiDigit

/-- The token loop of `_extract_keyword_tags`. -/
def keywordTagLoop (max_count : Nat) (keys acc : List Str) : List Str → List Str
  | [] => acc
  | token :: rest =>
    let lowered := pyLower token
    if lowered ∈ STOPWORDS then keywordTagLoop max_count keys acc rest
    else if isAllDigits token then keywordTagLoop max_count keys acc rest
    else if isAllDigits token && 2 ≤ token.length && token.length ≤ 8 then
      keywordTagLoop max_count keys acc rest
    else
      let normalized := if !isAsciiStr token then token else lowered
      let key := normalize_tag_key normalized
      if key ∈ keys then keywordTagLoop max_count keys acc rest
      else
        let acc2 := acc ++ [normalized]
        if max_count ≤ acc2.length then acc2
        else keywordTagLoop max_count (keys ++ [key]) acc2 rest

/-- `rule_engine._extract_keyword_tags` (default `max_count = 12`). -/
def extract_keyword_tags (title description caption_raw : Str)
    (existing_tags : List Str) : List Str :=
  let merged := pyStrip (title ++ [' '] ++ description ++ [' '] ++ caption_raw)
  if merged = [] then []
  else
    let existing_keys := (existing_tags.filter (fun t => pyStrip t ≠ [])).map
      normalize_tag_key
    keywordTagLoop 12 existing_keys [] (tokenRuns merged)

/-! ### Final tag assembly

Python sorts the deduplicated tag set with the code-point lexicographic
string order; `strLtB` is that order on `Str`. -/

def strLtB : Str → Str → Bool
  | [], [] => false
  | [], _ :: _ => true
  | _ :: _, [] => false
  | a :: as, b :: bs =>
    if a < b then true
    else if b < a then false
    else strLtB as bs

def strLeB (a b : Str) : Bool := !strLtB b a

/-- The lexicographic order as a proposition, for the sorting lemmas. -/
def SLe (a b : Str) : Prop := strLeB a b = true

instance : DecidableRel SLe := fun a b => instDecidableEqBool (strLeB a b) true

/-- `sorted(set(xs))`. -/
def pySortedSet (xs : List Str) : List Str :=
  List.insertionSort SLe xs.dedup

/-- The auto-tag cap loop at the end of `apply_rules` (`_AUTO_TAG_LIMIT = 3`). -/
def limitAutoTags (limit : Nat) (explicit_keys auto_keys acc : List Str) :
    List Str → List Str
  | [] => acc
  | raw :: rest =>
    let tag := pyStrip raw
    if tag = [] then limitAutoTags limit explicit_keys auto_keys acc rest
    else
      let key := normalize_tag_key tag
      if key ∈ explicit_keys ∨ key ∈ auto_keys then
        limitAutoTags limit explicit_keys auto_keys acc rest
      else
        let acc2 := acc ++ [tag]
        if limit ≤ acc2.length then acc2
        else limitAutoTags limit explicit_keys (auto_keys ++ [key]) acc2 rest

/-- The partial state after the category/keyword resolution at the top of
`apply_rules`. -/
structure EngineSeed where
  category : Str
  category_resolved : Bool
  review_reasons : List Str
  auto_tag_candidates : List Str
deriving Repr

def resolve_allowed_category (allowed : List (Str × Str)) (raw : Str) : Option Str :=
  if raw = [] then none else lookupA (normalize_tag_key raw) allowed

/-- Lines 278-288 of `rule_engine.apply_rules`: the explicit caption
category is accepted iff it normalizes into the allowed map; otherwise the
category falls back to the default and `CATEGORY_OUT_OF_RULESET` is
recorded. -/
def explicitCategorySeed (allowed : List (Str × Str)) (default_category : Str)
    (explicit : Option Str) : EngineSeed :=
  match explicit with
  | some c =>
    if c ≠ [] then
      match resolve_allowed_category allowed (pyStrip c) with
      | some v => ⟨v, true, [], []⟩
      | none => ⟨default_category, false, [strOf "CATEGORY_OUT_OF_RULESET"], []⟩
    else ⟨default_category, false, [], []⟩
  | none => ⟨default_category, false, [], []⟩

/-- Lines 290-318, the scan itself: iterate sources outermost and
`category_rules` innermost; the first rule whose keywords for that source
match wins. -/
def keywordHit (ctx : RuleInput) (rules : Rules) : Option CategoryRule :=
  let ordered_sources :=
    [(strOf "title", ctx.title), (strOf "description", ctx.description),
     (strOf "filename", ctx.filename), (strOf "body", ctx.body_text)]
  ordered_sources.findSome? (fun sn =>
    if sn.2 = [] then none
    else rules.category_rules.findSome? (fun rule =>
      let keywords := ((rule.keywords.find? (fun p => p.1 = sn.1)).map (·.2)).getD []
      if keywords ≠ [] ∧ match_keywords sn.2 keywords then some rule else none))

/-- Lines 290-318: when the category is still unresolved, the first keyword
hit fixes the category and queues the rule's tags. -/
def keywordPhase (ctx : RuleInput) (rules : Rules) (allowed : List (Str × Str))
    (default_category : Str) (seed : EngineSeed) : EngineSeed :=
  if seed.category_resolved then seed
  else
    match keywordHit ctx rules with
    | some rule =>
      let category :=
        match rule.category with
        | some c => (resolve_allowed_category allowed (pyStrip c)).getD default_category
        | none => default_category
      ⟨category, true, seed.review_reasons, seed.auto_tag_candidates ++ rule.tags⟩
    | none => seed

/-- Lines 320-336: the date candidates in source order and the
`DATE_MISSING` fallback. -/
def datePhase (ctx : RuleInput) : PDate × Bool :=
  let candidates : List (Option Str) :=
    [ctx.caption.explicit_date, some ctx.caption.caption_raw, some ctx.title,
     some ctx.filename, ctx.metadata_date_text]
  match candidates.findSome? (fun t => parse_event_date_from_text t ctx.ingested_at) with
  | some d => (d, false)
  | none => (ctx.ingested_at, true)

/-- The category/resolution/reason triple of lines 357-376 (the tag-based
fallback of `apply_rules`), continuing from the keyword phase. -/
def categoryTriple (ctx : RuleInput) (rules : Rules) (allowed : List (Str × Str))
    (default_category : Str) (seed : EngineSeed) (auto2 review_reasons : List Str) :
    Str × Bool × List Str :=
  if seed.category_resolved then (seed.category, true, review_reasons)
  else
    let explicit_tags := (ctx.caption.explicit_tags.map pyStrip).filter (· ≠ [])
    match infer_category_from_tags explicit_tags auto2 rules default_category false with
    | some c =>
      if pyStrip c ≠ [] then
        match resolve_allowed_category allowed (pyStrip c) with
        | some v => (v, true, review_reasons)
        | none =>
          (seed.category, false, review_reasons ++ [strOf "CATEGORY_OUT_OF_RULESET"])
      else (seed.category, false, review_reasons ++ [strOf "CLASSIFY_FAIL"])
    | none => (seed.category, false, review_reasons ++ [strOf "CLASSIFY_FAIL"])

/-- The structured/keyword auto-tag candidates of lines 338-355, appended to
the seed's candidates. -/
def autoCandidates (ctx : RuleInput) (seed : EngineSeed) : List Str :=
  let tags := (ctx.caption.explicit_tags.map pyStrip).filter (· ≠ [])
  let auto1 := seed.auto_tag_candidates ++
    infer_structured_tags ctx.title ctx.description ctx.filename
      (tags ++ seed.auto_tag_candidates)
  auto1 ++
    extract_keyword_tags ctx.title ctx.description ctx.caption.caption_raw (tags ++ auto1)

def applyRulesPost (ctx : RuleInput) (rules : Rules) (allowed : List (Str × Str))
    (default_category : Str) (seed : EngineSeed) : RuleOutput :=
  let explicit_tags := (ctx.caption.explicit_tags.map pyStrip).filter (· ≠ [])
  let tags := explicit_tags
  let review_reasons := seed.review_reasons ++
    (if (datePhase ctx).2 then [strOf "DATE_MISSING"] else [])
  let auto2 := autoCandidates ctx seed
  let cr := categoryTriple ctx rules allowed default_category seed auto2 review_reasons
  let category := cr.1
  let review_reasons2 :=
    if ¬cr.2.1 ∧ strOf "CLASSIFY_FAIL" ∉ cr.2.2 then
      cr.2.2 ++ [strOf "CLASSIFY_FAIL"]
    else cr.2.2
  let auto3 := if category ≠ [] ∧ category ≠ default_category then auto2 ++ [category]
               else auto2
  let explicit_keys := tags.map normalize_tag_key
  let limited_auto_tags := limitAutoTags 3 explicit_keys [] [] auto3
  { category := category
    tags := pySortedSet (tags ++ limited_auto_tags)
    event_date := (datePhase ctx).1
    review_reasons := review_reasons2 }

/-- The effective default category name (lines 251-255 of `apply_rules`):
the configured `default_category`, stripped, falling back to `기타`. -/
def defaultNameOf (rules : Rules) : Str :=
  match rules.default_category with
  | some s => if pyStrip s ≠ [] then pyStrip s else strOf "기타"
  | none => strOf "기타"

/-- The default-category block at the top of `apply_rules` (lines 251-261):
the effective default name and the allowed map extended with it. -/
def defaultAndAllowed (rules : Rules) : Str × List (Str × Str) :=
  let allowed := build_allowed_category_map rules
  let default_category := defaultNameOf rules
  let default_key := normalize_tag_key default_category
  match lookupA default_key allowed with
  | some v => (v, allowed)
  | none =>
    if default_category ≠ [] then (default_category, allowed ++ [(default_key, default_category)])
    else (default_category, allowed)

/-- `rule_engine.apply_rules`. -/
def apply_rules (ctx : RuleInput) (rules : Rules) : RuleOutput :=
  let default_category := (defaultAndAllowed rules).1
  let allowed := (defaultAndAllowed rules).2
  let seed := keywordPhase ctx rules allowed default_category
    (explicitCategorySeed allowed default_category ctx.caption.explicit_category)
  applyRulesPost ctx rules allowed default_category seed

/-- The ruleset of the repository's rule-engine unit tests. -/
def testRules : Rules :=
  { default_category := some (strOf "기타")
    category_rules :=
      [ { category := some (strOf "회의")
          keywords :=
            [ (strOf "title", [strOf "회의", strOf "meeting"])
            , (strOf "description", [strOf "의사결정"])
            , (strOf "filename", [strOf "minutes"])
            , (strOf "body", [strOf "회의록"]) ]
          tags := [strOf "회의"] } ]
    tag_category_rules := [] }

def testCtx (caption : String) (filename : String) : RuleInput :=
  let parsed := parse_caption (some (strOf caption)) (strOf filename)
  { caption := parsed
    title := parsed.title
    description := parsed.description
    filename := strOf filename
    body_text := []
    metadata_date_text := none
    ingested_at := ⟨2026, 2, 24⟩ }

example : (apply_rules (testCtx "제목\n설명\n#분류:회의" "a.pdf") testRules).category =
    strOf "회의" := by decide

example :
    let out := apply_rules (testCtx "제목\n설명\n#분류:계약" "a.pdf") testRules
    out.category = strOf "기타" ∧
      strOf "CATEGORY_OUT_OF_RULESET" ∈ out.review_reasons ∧
      strOf "CLASSIFY_FAIL" ∈ out.review_reasons := by decide

example :
    let out := apply_rules (testCtx "무관한 제목\n무관한 내용" "x.bin") testRules
    out.category = strOf "기타" ∧ strOf "CLASSIFY_FAIL" ∈ out.review_reasons := by decide

example :
    let out := apply_rules (testCtx "Document Control Procedure rev.2\n운영 절차"
      "dcp_rev2.pdf") testRules
    strOf "set:dcp" ∈ out.tags ∧
      strOf "dockey:document-control-procedure" ∈ out.tags ∧
      strOf "rev:2" ∈ out.tags := by decide

example :
    let out := apply_rules (testCtx "주간 운영회의\n포털 계정 점검 및 일정 공유"
      "meeting_note.txt") testRules
    out.tags = [strOf "운영회의", strOf "주간", strOf "회의"] := by decide

example :
    let out := apply_rules (testCtx "Document Control Procedure rev.2\n운영 절차"
      "dcp_rev2.pdf")
      { default_category := some (strOf "기타")
        category_rules := []
        tag_category_rules :=
          [{ category := some (strOf "문서통제"), tags := [strOf "set:dcp"],
             matchMode := strOf "any" }] }
    out.category = strOf "문서통제" ∧ strOf "CLASSIFY_FAIL" ∉ out.review_reasons := by decide

example :
    let out := apply_rules (testCtx "주간 회의\n진행상황 공유\n#분류:회의\n#날짜:2026-02-24\n#태그:alpha,beta"
      "a.pdf") testRules
    out.category = strOf "회의" ∧ out.event_date = ⟨2026, 2, 24⟩ ∧
      strOf "alpha" ∈ out.tags ∧ strOf "beta" ∈ out.tags ∧
      out.review_reasons = [] := by decide

/-! ## `services/retry_policy.py` and `worker/tasks_ingest.py`

Wall-clock instants are integer epoch seconds.  An `Option Str` error field
models the Python attribute, with `none` covering both `None` and the empty
string (the two falsy cases of `if not job.last_error_code`). -/

inductive IngestState where
  | RECEIVED | STORED | EXTRACTED | CLASSIFIED | INDEXED
  | PUBLISHED | NEEDS_REVIEW | FAILED
deriving DecidableEq, Repr

structure IngestJob where
  id : Nat
  state : IngestState
  attempt_count : Int
  max_attempts : Int
  last_error_code : Option Str
  last_error_message : Option Str
  retry_after : Option Int
  started_at : Option Int
  finished_at : Option Int
deriving DecidableEq, Repr

/-- The JSON payload keys the worker writes on its events and audit rows. -/
structure EventPayload where
  attempt_count : Option Int := none
  max_attempts : Option Int := none
  delay_seconds : Option Int := none
  retry_after : Option Int := none
  reason : Option Str := none
  last_error_code : Option Str := none
  error_code : Option Str := none
  error_stage : Option Str := none
  error : Option Str := none
deriving DecidableEq, Repr

structure IngestEvent where
  ingest_job_id : Nat
  from_state : IngestState
  to_state : IngestState
  event_type : Str
  event_message : Str
  event_payload : EventPayload
deriving DecidableEq, Repr

structure AuditLog where
  action : Str
  target_type : Str
  target_id : Nat
  after_json : EventPayload
deriving DecidableEq, Repr

structure WorkerDb where
  events : List IngestEvent
  audits : List AuditLog
deriving DecidableEq, Repr

/-- `retry_policy.should_retry`. -/
def should_retry (attempt_count max_attempts : Int) : Bool :=
  if max_attempts ≤ 0 then false else attempt_count < max_attempts

/-- `retry_policy.compute_backoff_seconds`. -/
def compute_backoff_seconds (attempt_count base_seconds max_seconds : Int) : Int :=
  let safe_attempt := max 1 attempt_count
  let safe_base := max 1 base_seconds
  let safe_max := max safe_base max_seconds
  min (safe_base * 2 ^ (safe_attempt - 1).toNat) safe_max

/-- `retry_policy.compute_retry_after` with the clock passed explicitly. -/
def compute_retry_after (attempt_count base_seconds max_seconds now : Int) : Int :=
  now + compute_backoff_seconds attempt_count base_seconds max_seconds

/-- `tasks_ingest._schedule_retry`: returns the countdown and the updated
job and journal. -/
def schedule_retry (db : WorkerDb) (job : IngestJob) (reason : Str)
    (base_seconds max_seconds now : Int) : Int × IngestJob × WorkerDb :=
  let delay_seconds := compute_backoff_seconds job.attempt_count base_seconds max_seconds
  let retry_after := compute_retry_after job.attempt_count base_seconds max_seconds now
  let job2 := { job with
    state := .RECEIVED
    retry_after := some retry_after
    started_at := none
    finished_at := none }
  let ev : IngestEvent :=
    { ingest_job_id := job.id
      from_state := job.state
      to_state := .RECEIVED
      event_type := strOf "RETRY_SCHEDULED"
      event_message := strOf "job failed, scheduled retry"
      event_payload :=
        { attempt_count := some job.attempt_count
          max_attempts := some job.max_attempts
          delay_seconds := some delay_seconds
          retry_after := some retry_after
          reason := some reason } }
  (delay_seconds, job2, { db with events := db.events ++ [ev] })

/-- `tasks_ingest._move_to_dead_letter`. -/
def move_to_dead_letter (db : WorkerDb) (job : IngestJob) (reason : Str) :
    IngestJob × WorkerDb :=
  let code :=
    if job.last_error_code = none ∨ job.last_error_code = some (strOf "INGEST_FAILED")
    then some (strOf "DLQ_MAX_ATTEMPTS") else job.last_error_code
  let msg := if job.last_error_message = none then some reason else job.last_error_message
  let job2 := { job with
    state := .FAILED
    retry_after := none
    last_error_code := code
    last_error_message := msg }
  let payload : EventPayload :=
    { attempt_count := some job.attempt_count
      max_attempts := some job.max_attempts
      reason := some reason
      last_error_code := code }
  let ev : IngestEvent :=
    { ingest_job_id := job.id
      from_state := job.state
      to_state := .FAILED
      event_type := strOf "DEAD_LETTER"
      event_message := strOf "max attempts exceeded; moved to dead-letter"
      event_payload := payload }
  let audit : AuditLog :=
    { action := strOf "INGEST_JOB_DEAD_LETTER"
      target_type := strOf "ingest_job"
      target_id := job.id
      after_json := payload }
  (job2, { events := db.events ++ [ev], audits := db.audits ++ [audit] })

/-- `ingest_service._fail_job` restricted to its job and journal effects:
record the error fields, move to FAILED with `finished_at` set, and append
the ERROR event.  The returned reason of the result dict is the error
code. -/
def fail_job (db : WorkerDb) (job : IngestJob)
    (error_code error_stage error_message : Str) (now : Int) :
    IngestJob × WorkerDb × Str :=
  let job1 := { job with
    last_error_code := some error_code
    last_error_message := some error_message }
  let job2 := { job1 with state := .FAILED, finished_at := some now }
  let ev : IngestEvent :=
    { ingest_job_id := job.id
      from_state := job1.state
      to_state := .FAILED
      event_type := strOf "ERROR"
      event_message := strOf "ingest failed at " ++ error_stage
      event_payload :=
        { error_code := some error_code
          error_stage := some error_stage
          error := some error_message } }
  (job2, { db with events := db.events ++ [ev] }, error_code)

/-- The failure path of `tasks_ingest.process_ingest_job_task`: after a
failed attempt, either schedule a retry (returning the countdown) or move
the job to the dead letter. -/
def handle_failed_attempt (db : WorkerDb) (job : IngestJob) (reason : Str)
    (base_seconds max_seconds now : Int) :
    IngestJob × WorkerDb × Option Int :=
  if should_retry job.attempt_count job.max_attempts then
    let (delay, job2, db2) := schedule_retry db job reason base_seconds max_seconds now
    (job2, db2, some delay)
  else
    let (job2, db2) := move_to_dead_letter db job reason
    (job2, db2, none)

/-- A failing attempt end to end: `_fail_job` inside `process_ingest_job`,
then the task wrapper reacting to the non-ok result. -/
def failed_attempt_flow (db : WorkerDb) (job : IngestJob)
    (error_code error_stage error_message : Str)
    (base_seconds max_seconds now : Int) :
    IngestJob × WorkerDb × Option Int :=
  let (job1, db1, reason) := fail_job db job error_code error_stage error_message now
  handle_failed_attempt db1 job1 reason base_seconds max_seconds now

/-! ## `services/openclaw_actions.py`

The token is carried in decoded form: `base64url` encoding and the sorted-
key JSON serialization are bijective on well-formed tokens, so a token is
its payload together with its signature, and the HMAC-SHA256 under the
deployment secret is an abstract function `sign` from payloads to
signatures.  Timestamps are whole epoch seconds. -/

structure TokenPayload where
  v : Int
  job_id : Str
  action : Str
  exp : Int
deriving DecidableEq, Repr

structure ActionToken (Sig : Type) where
  payload : TokenPayload
  signature : Sig
deriving DecidableEq, Repr

/-- `openclaw_actions.issue_action_token`; returns the token and
`expires_at` (as its epoch second).  A `ttl_seconds` of `none` or `0` is
falsy and selects the configured default. -/
def issue_action_token {Sig : Type} (sign : TokenPayload → Sig)
    (job_id action : Str) (now : Int) (ttl_seconds : Option Int)
    (default_ttl : Int) : ActionToken Sig × Int :=
  let token_ttl := match ttl_seconds with
    | some t => if t = 0 then default_ttl else t
    | none => default_ttl
  let exp := now + max 1 token_ttl
  let payload : TokenPayload := ⟨1, job_id, action, exp⟩
  (⟨payload, sign payload⟩, exp)

/-- `openclaw_actions.verify_action_token`, with its checks in source
order: signature, job, action, expiry. -/
def verify_action_token {Sig : Type} [DecidableEq Sig] (sign : TokenPayload → Sig)
    (token : ActionToken Sig) (job_id action : Str) (now : Int) :
    Except Str TokenPayload :=
  if token.signature ≠ sign token.payload then
    .error (strOf "invalid token signature")
  else if token.payload.job_id ≠ job_id then
    .error (strOf "token job mismatch")
  else if token.payload.action ≠ action then
    .error (strOf "token action mismatch")
  else if now > token.payload.exp then
    .error (strOf "token expired")
  else .ok token.payload

/-! ## Content store: `ingest_service._store_file` and
`dedupe_service.find_by_checksum`

The blob backends are observed through the journal of written storage
keys; MIME guessing is not observed by any claim and is omitted. -/

structure FileRec where
  id : Nat
  checksum_sha256 : Str
  storage_key : Str
  original_filename : Str
deriving DecidableEq, Repr

structure StoreState where
  files : List FileRec
  nextId : Nat
  backendWrites : List Str
  links : List (Nat × Nat)
deriving DecidableEq, Repr

/-- `dedupe_service.find_by_checksum` (`scalar_one_or_none` under the DB
uniqueness of checksums). -/
def find_by_checksum (files : List FileRec) (checksum : Str) : Option FileRec :=
  files.find? (fun f => f.checksum_sha256 = checksum)

/-- `DocumentFile` rows pointing at a file. -/
def linked_count (st : StoreState) (file_id : Nat) : Nat :=
  (st.links.filter (fun l => l.2 = file_id)).length

/-- `ingest_service._storage_key`. -/
def storage_key (checksum : Str) (extension : Option Str) : Str :=
  let ext := (pyLower (extension.getD (strOf "bin"))).dropWhile (fun c => c = '.')
  checksum.take 2 ++ ['/'] ++ (checksum.drop 2).take 2 ++ ['/'] ++ checksum ++ ['.'] ++ ext

/-- `pathlib.Path(filename).suffix`. -/
def pathSuffix (filename : Str) : Str :=
  let nm := afterLast '/' filename
  let tail := afterLast '.' nm
  if '.' ∈ nm.drop 1 ∧ tail ≠ [] then '.' :: tail else []

/-- The slice of an `IngestJob` that `_store_file` reads. -/
structure StoreJob where
  temp_exists : Bool
  temp_checksum : Str
  temp_size : Int
  payload_filename : Option Str
  temp_name : Str
deriving DecidableEq, Repr

structure StoreResult where
  file : FileRec
  checksum_sha256 : Str
  size_bytes : Int
  duplicate_suspect : Bool
deriving DecidableEq, Repr

/-- `ingest_service._store_file`: return the existing File for a known
checksum without writing, else write the blob and insert a File row. -/
def store_file (st : StoreState) (job : StoreJob) :
    Except Str (StoreResult × StoreState) :=
  if ¬job.temp_exists then .error (strOf "temp file not found")
  else
    let checksum := job.temp_checksum
    let filename := job.payload_filename.getD job.temp_name
    match find_by_checksum st.files checksum with
    | some existing =>
      let lc := linked_count st existing.id
      .ok ({ file := existing
             checksum_sha256 := checksum
             size_bytes := job.temp_size
             duplicate_suspect := decide (0 < lc) }, st)
    | none =>
      let e := (pathSuffix filename).dropWhile (fun c => c = '.')
      let extension := if e = [] then none else some e
      let key := storage_key checksum extension
      let file_row : FileRec :=
        { id := st.nextId
          checksum_sha256 := checksum
          storage_key := key
          original_filename := filename }
      let st2 : StoreState :=
        { files := st.files ++ [file_row]
          nextId := st.nextId + 1
          backendWrites := st.backendWrites ++ [key]
          links := st.links }
      .ok ({ file := file_row
             checksum_sha256 := checksum
             size_bytes := job.temp_size
             duplicate_suspect := false }, st2)

/-- Lines 466-468 of `ingest_service.process_ingest_job`: merge the
duplicate-suspect flag into the review reasons of the new document. -/
def pipeline_review_reasons (rule_reasons : List Str) (duplicate_suspect : Bool) :
    List Str :=
  if duplicate_suspect ∧ strOf "DUPLICATE_SUSPECT" ∉ rule_reasons then
    rule_reasons ++ [strOf "DUPLICATE_SUSPECT"]
  else rule_reasons

/-! ## Review status: catalog creation, review-queue resolution, document
patch and backfill (`_create_document`, `_apply_review_update`,
`patch_document`, `process_backfill_payload`). -/

inductive ReviewStatus where
  | NONE | NEEDS_REVIEW | RESOLVED
deriving DecidableEq, Repr

structure DocumentRec where
  category_id : Option Nat
  event_date : Option PDate
  review_status : ReviewStatus
  review_reasons : List Str
deriving DecidableEq, Repr

/-- `ingest_service._create_document` line 257. -/
def create_document_review_status (review_reasons : List Str) : ReviewStatus :=
  if review_reasons ≠ [] then .NEEDS_REVIEW else .NONE

structure ReviewUpdateReq where
  category_id : Option Nat
  category_name : Option Str
  event_date : Option PDate
  reason_remove : List Str
  approve : Bool
deriving DecidableEq, Repr

/-- The field updates of `routes_review_queue._apply_review_update` before
its approve block; `resolveCategory` stands for `upsert_category(...).id`. -/
def reviewUpdateCore (doc : DocumentRec) (req : ReviewUpdateReq)
    (resolveCategory : Str → Option Nat) : DocumentRec :=
  let category_provided : Bool :=
    req.category_id.isSome || (match req.category_name with
      | some n => decide (n ≠ [])
      | none => false)
  let doc : DocumentRec := match req.category_id with
    | some cid => { doc with category_id := some cid }
    | none =>
      match req.category_name with
      | some n => if n ≠ [] then { doc with category_id := resolveCategory n } else doc
      | none => doc
  let doc : DocumentRec :=
    if category_provided = true ∧ strOf "CLASSIFY_FAIL" ∈ doc.review_reasons then
      { doc with review_reasons := doc.review_reasons.filter (fun r => r ≠ strOf "CLASSIFY_FAIL") }
    else doc
  let doc : DocumentRec := match req.event_date with
    | some d => { doc with event_date := some d }
    | none => doc
  let doc : DocumentRec :=
    if req.event_date.isSome ∧ strOf "DATE_MISSING" ∈ doc.review_reasons then
      { doc with review_reasons := doc.review_reasons.filter (fun r => r ≠ strOf "DATE_MISSING") }
    else doc
  if req.reason_remove ≠ [] then
    { doc with review_reasons := doc.review_reasons.filter (fun r => r ∉ req.reason_remove) }
  else doc

/-- `routes_review_queue._apply_review_update` restricted to the document
fields: the field updates followed by the approve block. -/
def apply_review_update (doc : DocumentRec) (req : ReviewUpdateReq)
    (resolveCategory : Str → Option Nat) : DocumentRec :=
  let doc := reviewUpdateCore doc req resolveCategory
  if req.approve then
    { doc with review_reasons := [], review_status := .RESOLVED }
  else
    { doc with review_status :=
        if doc.review_reasons ≠ [] then .NEEDS_REVIEW else .RESOLVED }

/-- `routes_documents.patch_document` restricted to the review fields: a
provided non-null `review_status` is written verbatim and
`review_reasons` is untouched. -/
def patch_document_review (doc : DocumentRec) (req_review_status : Option ReviewStatus) :
    DocumentRec :=
  match req_review_status with
  | some s => { doc with review_status := s }
  | none => doc

/-- The review fields written by one backfill update
(`backfill_service.process_backfill_payload` lines 148-155). -/
def backfill_review (old_reasons rule_reasons : List Str) : List Str × ReviewStatus :=
  let withDup :=
    if strOf "DUPLICATE_SUSPECT" ∈ old_reasons ∧ strOf "DUPLICATE_SUSPECT" ∉ rule_reasons
    then rule_reasons ++ [strOf "DUPLICATE_SUSPECT"] else rule_reasons
  let new_reasons := pySortedSet withDup
  (new_reasons, if new_reasons ≠ [] then .NEEDS_REVIEW else .NONE)

/-- Section 8 invariant 2 of the specification. -/
def reviewInvariant (d : DocumentRec) : Prop :=
  d.review_status = .NEEDS_REVIEW ↔ d.review_reasons ≠ []

/-! # Theorems -/

/-- Except success test. -/
def exceptOk {e a : Type} : Except e a → Bool
  | .ok _ => true
  | .error _ => false

/-- An empty ruleset (no default, no rules). -/
def emptyRules : Rules := ⟨none, [], []⟩

/-- C4 counterexample input: the claimed law fails when the configured
maximum is below the base, because the code clamps `max` up to `base`:
`compute_backoff_seconds(1, 30, 10)` is `30`, not `min(30·2^0, 10) = 10`. -/
theorem C4_counterexample :
    compute_backoff_seconds 1 30 10 = 30 ∧
      compute_backoff_seconds 1 30 10 ≠ min (30 * 2 ^ (((1 : Int) - 1).toNat)) 10 := by
  decide

/-- C4 (amended): for every attempt ≥ 1 and configuration with base ≥ 1 and
max ≥ base, the retry delay equals `min(base · 2^(attempt−1), max)`, and the
`retry_after` scheduled by `_schedule_retry` equals the scheduling time plus
that delay (the event payload records the same delay and instant). -/
theorem C4_backoff_law (db : WorkerDb) (job : IngestJob) (reason : Str)
    (base maxs now : Int) (h1 : 1 ≤ job.attempt_count) (h2 : 1 ≤ base)
    (h3 : base ≤ maxs) :
    (schedule_retry db job reason base maxs now).1 =
        min (base * 2 ^ (job.attempt_count - 1).toNat) maxs ∧
    (schedule_retry db job reason base maxs now).2.1.retry_after =
        some (now + (schedule_retry db job reason base maxs now).1) ∧
    (schedule_retry db job reason base maxs now).2.2.events.getLast? =
        some { ingest_job_id := job.id
               from_state := job.state
               to_state := .RECEIVED
               event_type := strOf "RETRY_SCHEDULED"
               event_message := strOf "job failed, scheduled retry"
               event_payload :=
                 { attempt_count := some job.attempt_count
                   max_attempts := some job.max_attempts
                   delay_seconds := some ((schedule_retry db job reason base maxs now).1)
                   retry_after := some (now + (schedule_retry db job reason base maxs now).1)
                   reason := some reason } } := by
  have hbackoff : compute_backoff_seconds job.attempt_count base maxs =
      min (base * 2 ^ (job.attempt_count - 1).toNat) maxs := by
    simp only [compute_backoff_seconds]
    rw [max_eq_right h1, max_eq_right h2, max_eq_right h3]
  refine ⟨?_, ?_, ?_⟩
  · simpa [schedule_retry] using hbackoff
  · simp [schedule_retry, compute_retry_after]
  · simp [schedule_retry, compute_retry_after]

/-- Witness for C4_backoff_law at attempt 2, base 30, max 1800. -/
theorem C4_backoff_law_witness :
    (1 : Int) ≤ 2 ∧ (1 : Int) ≤ 30 ∧ (30 : Int) ≤ 1800 ∧
    (schedule_retry ⟨[], []⟩
        ⟨7, .STORED, 2, 5, none, none, none, some 0, none⟩
        (strOf "STORAGE_WRITE_FAIL") 30 1800 1000).1 =
      min (30 * 2 ^ (((2 : Int) - 1).toNat)) 1800 := by
  refine ⟨by decide, by decide, by decide, ?_⟩
  exact (C4_backoff_law ⟨[], []⟩ ⟨7, .STORED, 2, 5, none, none, none, some 0, none⟩
    (strOf "STORAGE_WRITE_FAIL") 30 1800 1000 (by decide) (by decide) (by decide)).1

theorem verifyBadSig {Sig : Type} [DecidableEq Sig] (sign : TokenPayload → Sig)
    (tok : ActionToken Sig) (job action : Str) (now : Int)
    (h : tok.signature ≠ sign tok.payload) :
    exceptOk (verify_action_token sign tok job action now) = false := by
  simp [verify_action_token, exceptOk, h]

theorem verifyWrongJob {Sig : Type} [DecidableEq Sig] (sign : TokenPayload → Sig)
    (tok : ActionToken Sig) (job action : Str) (now : Int)
    (hsig : tok.signature = sign tok.payload) (h : tok.payload.job_id ≠ job) :
    exceptOk (verify_action_token sign tok job action now) = false := by
  simp [verify_action_token, exceptOk, hsig, h]

theorem verifyWrongAction {Sig : Type} [DecidableEq Sig] (sign : TokenPayload → Sig)
    (tok : ActionToken Sig) (job action : Str) (now : Int)
    (hsig : tok.signature = sign tok.payload) (hjob : tok.payload.job_id = job)
    (h : tok.payload.action ≠ action) :
    exceptOk (verify_action_token sign tok job action now) = false := by
  simp [verify_action_token, exceptOk, hsig, hjob, h]

theorem verifyOkIff {Sig : Type} [DecidableEq Sig] (sign : TokenPayload → Sig)
    (tok : ActionToken Sig) (job action : Str) (now : Int)
    (hsig : tok.signature = sign tok.payload) (hjob : tok.payload.job_id = job)
    (hact : tok.payload.action = action) :
    (exceptOk (verify_action_token sign tok job action now) = true ↔
      now ≤ tok.payload.exp) := by
  simp only [verify_action_token, hsig, hjob, hact, ne_eq, not_true_eq_false,
    if_false, gt_iff_lt]
  split
  · simp [exceptOk]
    omega
  · simp [exceptOk]
    omega

/-- C3: the action-token laws.  The issued token verifies against the same
job and action exactly when `now` is at most the returned expiry; a token
with an altered payload (under injectivity of the HMAC, modelled as the
abstract `sign`), an altered signature, a different job, or a different
action is rejected. -/
theorem C3_action_token_laws {Sig : Type} [DecidableEq Sig]
    (sign : TokenPayload → Sig) (job_id action : Str)
    (now ttl default_ttl now2 : Int) (hinj : Function.Injective sign) :
    (exceptOk (verify_action_token sign
        (issue_action_token sign job_id action now (some ttl) default_ttl).1
        job_id action now2) = true ↔
      now2 ≤ (issue_action_token sign job_id action now (some ttl) default_ttl).2) ∧
    (∀ p2 : TokenPayload,
      p2 ≠ (issue_action_token sign job_id action now (some ttl) default_ttl).1.payload →
      exceptOk (verify_action_token sign
        ⟨p2, (issue_action_token sign job_id action now (some ttl) default_ttl).1.signature⟩
        job_id action now2) = false) ∧
    (∀ s2 : Sig,
      s2 ≠ (issue_action_token sign job_id action now (some ttl) default_ttl).1.signature →
      exceptOk (verify_action_token sign
        ⟨(issue_action_token sign job_id action now (some ttl) default_ttl).1.payload, s2⟩
        job_id action now2) = false) ∧
    (∀ j2 : Str, j2 ≠ job_id →
      exceptOk (verify_action_token sign
        (issue_action_token sign job_id action now (some ttl) default_ttl).1
        j2 action now2) = false) ∧
    (∀ a2 : Str, a2 ≠ action →
      exceptOk (verify_action_token sign
        (issue_action_token sign job_id action now (some ttl) default_ttl).1
        job_id a2 now2) = false) := by
  refine ⟨?_, ?_, ?_, ?_, ?_⟩
  · exact verifyOkIff sign _ job_id action now2 rfl rfl rfl
  · intro p2 hp
    exact verifyBadSig sign ⟨p2, _⟩ job_id action now2
      (fun h => hp (hinj h).symm)
  · intro s2 hs
    exact verifyBadSig sign ⟨_, s2⟩ job_id action now2 hs
  · intro j2 hj
    exact verifyWrongJob sign _ j2 action now2 rfl (fun h => hj (Eq.symm h))
  · intro a2 ha
    exact verifyWrongAction sign _ job_id a2 now2 rfl rfl (fun h => ha (Eq.symm h))

/-- Witness for C3_action_token_laws: the identity signature function is
injective; a token issued at 0 with ttl 60 verifies at 30. -/
theorem C3_action_token_laws_witness :
    (exceptOk (verify_action_token (fun p => p)
        (issue_action_token (fun p => p) (strOf "job-1") (strOf "retry") 0 (some 60) 86400).1
        (strOf "job-1") (strOf "retry") 30) = true ↔
      (30 : Int) ≤ (issue_action_token (fun p => p) (strOf "job-1") (strOf "retry") 0
        (some 60) 86400).2) :=
  (C3_action_token_laws (fun p => p) (strOf "job-1") (strOf "retry") 0 60 86400 30
    (fun _ _ h => h)).1

theorem should_retry_false {a m : Int} (h : m ≤ a) : should_retry a m = false := by
  simp only [should_retry]
  split
  · rfl
  · simp
    omega

/-- The job used by the C1 counterexample: fifth attempt of five, failing
at the storage stage. -/
def c1Job : IngestJob :=
  { id := 1, state := .STORED, attempt_count := 5, max_attempts := 5
    last_error_code := none, last_error_message := none
    retry_after := none, started_at := some 0, finished_at := none }

/-- C1 counterexample: a job whose fifth of five attempts fails with
STORAGE_WRITE_FAIL is dead-lettered, but its `last_error_code` stays
STORAGE_WRITE_FAIL — the dead-letter step only writes DLQ_MAX_ATTEMPTS when
no specific code is present, so the claimed `last_error_code =
DLQ_MAX_ATTEMPTS` is false. -/
theorem C1_counterexample :
    (failed_attempt_flow ⟨[], []⟩ c1Job (strOf "STORAGE_WRITE_FAIL") (strOf "STORED")
        (strOf "boom") 30 1800 100).2.2 = none ∧
    (failed_attempt_flow ⟨[], []⟩ c1Job (strOf "STORAGE_WRITE_FAIL") (strOf "STORED")
        (strOf "boom") 30 1800 100).1.state = .FAILED ∧
    (failed_attempt_flow ⟨[], []⟩ c1Job (strOf "STORAGE_WRITE_FAIL") (strOf "STORED")
        (strOf "boom") 30 1800 100).1.last_error_code ≠
      some (strOf "DLQ_MAX_ATTEMPTS") := by
  decide

/-- C1 (amended): when an attempt fails with `attempt_count ≥ max_attempts`,
the job moves to FAILED with `retry_after` cleared and no retry countdown, a
DEAD_LETTER IngestEvent and an AuditLog row with action
INGEST_JOB_DEAD_LETTER are appended, and their shared payload records the
attempt counters and the underlying error code; `last_error_code` keeps the
underlying code (DLQ_MAX_ATTEMPTS would be written only if the code were
unset, empty, or the generic INGEST_FAILED). -/
theorem C1_dead_letter_amended (db : WorkerDb) (job : IngestJob)
    (error_code error_stage error_message : Str) (base maxs now : Int)
    (hmax : job.max_attempts ≤ job.attempt_count)
    (hcode : error_code ≠ strOf "INGEST_FAILED") :
    (failed_attempt_flow db job error_code error_stage error_message base maxs now).2.2 =
        none ∧
    (failed_attempt_flow db job error_code error_stage error_message base maxs now).1.state =
        .FAILED ∧
    (failed_attempt_flow db job error_code error_stage error_message base maxs now).1.last_error_code =
        some error_code ∧
    (failed_attempt_flow db job error_code error_stage error_message base maxs now).1.retry_after =
        none ∧
    (failed_attempt_flow db job error_code error_stage error_message base maxs
        now).2.1.events.getLast? = some
      { ingest_job_id := job.id, from_state := .FAILED, to_state := .FAILED
        event_type := strOf "DEAD_LETTER"
        event_message := strOf "max attempts exceeded; moved to dead-letter"
        event_payload :=
          { attempt_count := some job.attempt_count
            max_attempts := some job.max_attempts
            reason := some error_code
            last_error_code := some error_code } } ∧
    (failed_attempt_flow db job error_code error_stage error_message base maxs
        now).2.1.audits.getLast? = some
      { action := strOf "INGEST_JOB_DEAD_LETTER", target_type := strOf "ingest_job"
        target_id := job.id
        after_json :=
          { attempt_count := some job.attempt_count
            max_attempts := some job.max_attempts
            reason := some error_code
            last_error_code := some error_code } } := by
  have hsr : should_retry job.attempt_count job.max_attempts = false :=
    should_retry_false hmax
  have hif : ¬ ((some error_code : Option Str) = none ∨
      (some error_code : Option Str) = some (strOf "INGEST_FAILED")) := by
    simp [hcode]
  refine ⟨?_, ?_, ?_, ?_, ?_, ?_⟩ <;>
    simp [failed_attempt_flow, fail_job, handle_failed_attempt, hsr,
      move_to_dead_letter, hif, hcode, List.getLast?_concat]

/-- Witness for C1_dead_letter_amended on the counterexample job. -/
theorem C1_dead_letter_amended_witness :
    c1Job.max_attempts ≤ c1Job.attempt_count ∧
    (failed_attempt_flow ⟨[], []⟩ c1Job (strOf "STORAGE_WRITE_FAIL") (strOf "STORED")
        (strOf "boom") 30 1800 100).1.state = .FAILED :=
  ⟨by decide,
    (C1_dead_letter_amended ⟨[], []⟩ c1Job (strOf "STORAGE_WRITE_FAIL") (strOf "STORED")
      (strOf "boom") 30 1800 100 (by decide) (by decide)).2.1⟩

/-- A document flagged for review by the classifier. -/
def c9Doc : DocumentRec :=
  { category_id := none, event_date := none
    review_status := .NEEDS_REVIEW, review_reasons := [strOf "CLASSIFY_FAIL"] }

/-- C9 counterexample: `patch_document` writes a provided `review_status`
verbatim without touching `review_reasons`, so resolving a document that
still has reasons breaks the claimed equivalence. -/
theorem C9_counterexample :
    reviewInvariant c9Doc ∧
    ¬ reviewInvariant (patch_document_review c9Doc (some .RESOLVED)) := by
  constructor
  · simp [reviewInvariant, c9Doc]
  · simp [reviewInvariant, patch_document_review, c9Doc]

/-- C9 (amended): the review-status equivalence `review_status =
NEEDS_REVIEW ↔ review_reasons ≠ ∅` is established by pipeline document
creation, by review-queue resolution, and by backfill; a document update
that does not set `review_status` preserves it, but one that sets
`review_status` writes it verbatim and may break it (see the
counterexample). -/
theorem C9_review_invariant_amended :
    (∀ (reasons : List Str) (cid : Option Nat) (ed : Option PDate),
      reviewInvariant ⟨cid, ed, create_document_review_status reasons, reasons⟩) ∧
    (∀ (doc : DocumentRec) (req : ReviewUpdateReq) (resolve : Str → Option Nat),
      reviewInvariant (apply_review_update doc req resolve)) ∧
    (∀ (old_rs rule_rs : List Str) (cid : Option Nat) (ed : Option PDate),
      reviewInvariant ⟨cid, ed, (backfill_review old_rs rule_rs).2,
        (backfill_review old_rs rule_rs).1⟩) ∧
    (∀ doc : DocumentRec, reviewInvariant doc →
      reviewInvariant (patch_document_review doc none)) := by
  refine ⟨?_, ?_, ?_, ?_⟩
  · intro reasons cid ed
    simp only [reviewInvariant, create_document_review_status]
    by_cases h : reasons = [] <;> simp [h]
  · intro doc req resolve
    simp only [apply_review_update]
    generalize reviewUpdateCore doc req resolve = d
    by_cases ha : req.approve
    · simp [ha, reviewInvariant]
    · simp only [ha, if_false, reviewInvariant]
      by_cases h : d.review_reasons = [] <;> simp [h]
  · intro old_rs rule_rs cid ed
    simp only [reviewInvariant, backfill_review]
    generalize pySortedSet _ = nr
    by_cases h : nr = [] <;> simp [h]
  · intro doc h
    simpa [patch_document_review] using h

/-- Witness for C9_review_invariant_amended: patching with no review_status
preserves the invariant of the flagged document. -/
theorem C9_review_invariant_amended_witness :
    reviewInvariant c9Doc ∧ reviewInvariant (patch_document_review c9Doc none) :=
  ⟨by simp [reviewInvariant, c9Doc],
   C9_review_invariant_amended.2.2.2 c9Doc (by simp [reviewInvariant, c9Doc])⟩

theorem store_file_found (st : StoreState) (job : StoreJob) (f : FileRec)
    (h1 : job.temp_exists = true)
    (hf : find_by_checksum st.files job.temp_checksum = some f) :
    store_file st job = .ok
      ({ file := f, checksum_sha256 := job.temp_checksum, size_bytes := job.temp_size,
         duplicate_suspect := decide (0 < linked_count st f.id) }, st) := by
  simp [store_file, h1, hf]

theorem store_file_new (st : StoreState) (job : StoreJob)
    (h1 : job.temp_exists = true)
    (hf : find_by_checksum st.files job.temp_checksum = none) :
    ∃ row : FileRec, row.checksum_sha256 = job.temp_checksum ∧
      store_file st job = .ok
        ({ file := row, checksum_sha256 := job.temp_checksum,
           size_bytes := job.temp_size, duplicate_suspect := false },
         { files := st.files ++ [row], nextId := st.nextId + 1,
           backendWrites := st.backendWrites ++ [row.storage_key],
           links := st.links }) := by
  refine ⟨⟨st.nextId, job.temp_checksum,
    storage_key job.temp_checksum
      (if (pathSuffix (job.payload_filename.getD job.temp_name)).dropWhile
          (fun c => c = '.') = [] then none
       else some ((pathSuffix (job.payload_filename.getD job.temp_name)).dropWhile
          (fun c => c = '.'))),
    job.payload_filename.getD job.temp_name⟩, rfl, ?_⟩
  simp [store_file, h1, hf]

/-- C2: storing the same bytes twice is idempotent — the second call
returns the very File record the first produced, performs no second
backend write (the two calls add at most one write), and leaves the
document links untouched. -/
theorem C2_store_idempotent (st : StoreState) (j1 j2 : StoreJob)
    (_hnodup : List.Pairwise (fun f g => f.checksum_sha256 ≠ g.checksum_sha256) st.files)
    (hsame : j2.temp_checksum = j1.temp_checksum)
    (h1 : j1.temp_exists = true) (h2 : j2.temp_exists = true) :
    ∃ (r1 : StoreResult) (st1 : StoreState) (r2 : StoreResult) (st2 : StoreState),
      store_file st j1 = .ok (r1, st1) ∧
      store_file st1 j2 = .ok (r2, st2) ∧
      r2.file = r1.file ∧
      st2.backendWrites = st1.backendWrites ∧
      st1.backendWrites.length ≤ st.backendWrites.length + 1 ∧
      st2.links = st.links := by
  cases hfind : find_by_checksum st.files j1.temp_checksum with
  | some f =>
    have hf2 : find_by_checksum st.files j2.temp_checksum = some f := by
      rw [hsame]; exact hfind
    exact ⟨_, _, _, _, store_file_found st j1 f h1 hfind,
      store_file_found st j2 f h2 hf2, rfl, rfl, by omega, rfl⟩
  | none =>
    obtain ⟨row, hrc, e1⟩ := store_file_new st j1 h1 hfind
    have hnone2 : find_by_checksum st.files j2.temp_checksum = none := by
      rw [hsame]; exact hfind
    have hf2 : find_by_checksum (st.files ++ [row]) j2.temp_checksum = some row := by
      simp only [find_by_checksum, List.find?_append] at hnone2 ⊢
      rw [hnone2]
      simp [hrc, hsame]
    have e2 := store_file_found
      ⟨st.files ++ [row], st.nextId + 1, st.backendWrites ++ [row.storage_key], st.links⟩
      j2 row h2 hf2
    exact ⟨_, _, _, _, e1, e2, rfl, rfl, by simp, rfl⟩

/-- Witness for C2_store_idempotent: an empty store and two uploads of the
same bytes. -/
theorem C2_store_idempotent_witness :
    List.Pairwise (fun f g : FileRec => f.checksum_sha256 ≠ g.checksum_sha256)
      (StoreState.files ⟨[], 0, [], []⟩) ∧
    (∃ (r1 : StoreResult) (st1 : StoreState) (r2 : StoreResult) (st2 : StoreState),
      store_file ⟨[], 0, [], []⟩ ⟨true, strOf "abcd", 3, none, strOf "f.bin"⟩ = .ok (r1, st1) ∧
      store_file st1 ⟨true, strOf "abcd", 3, none, strOf "g.bin"⟩ = .ok (r2, st2) ∧
      r2.file = r1.file ∧
      st2.backendWrites = st1.backendWrites ∧
      st1.backendWrites.length ≤ (StoreState.backendWrites ⟨[], 0, [], []⟩).length + 1 ∧
      st2.links = (StoreState.links ⟨[], 0, [], []⟩)) :=
  ⟨by simp,
   C2_store_idempotent ⟨[], 0, [], []⟩ ⟨true, strOf "abcd", 3, none, strOf "f.bin"⟩
     ⟨true, strOf "abcd", 3, none, strOf "g.bin"⟩ (by simp) (by decide) rfl rfl⟩

/-! ### Order lemmas for the lexicographic string order -/

theorem strLtB_asymm : ∀ (a b : Str), strLtB a b = true → strLtB b a = true → False
  | [], [], h1, _ => by simp [strLtB] at h1
  | [], _ :: _, _, h2 => by simp [strLtB] at h2
  | _ :: _, [], h1, _ => by simp [strLtB] at h1
  | a :: as, b :: bs, h1, h2 => by
    simp only [strLtB] at h1 h2
    by_cases hab : a < b
    · rw [if_neg (lt_asymm hab), if_pos hab] at h2
      exact absurd h2 (by simp)
    · by_cases hba : b < a
      · rw [if_neg hab, if_pos hba] at h1
        exact absurd h1 (by simp)
      · rw [if_neg hab, if_neg hba] at h1
        rw [if_neg hba, if_neg hab] at h2
        exact strLtB_asymm as bs h1 h2

theorem strLtB_trichot : ∀ (a b : Str), strLtB a b = true ∨ a = b ∨ strLtB b a = true
  | [], [] => .inr (.inl rfl)
  | [], _ :: _ => .inl (by simp [strLtB])
  | _ :: _, [] => .inr (.inr (by simp [strLtB]))
  | a :: as, b :: bs => by
    rcases lt_trichotomy a b with h | h | h
    · exact .inl (by simp [strLtB, h])
    · subst h
      rcases strLtB_trichot as bs with h2 | h2 | h2
      · exact .inl (by simp [strLtB, lt_irrefl, h2])
      · exact .inr (.inl (by rw [h2]))
      · exact .inr (.inr (by simp [strLtB, lt_irrefl, h2]))
    · exact .inr (.inr (by simp [strLtB, h]))

theorem strLtB_trans : ∀ (a b c : Str),
    strLtB a b = true → strLtB b c = true → strLtB a c = true
  | [], [], _, h1, _ => by simp [strLtB] at h1
  | [], _ :: _, [], _, h2 => by simp [strLtB] at h2
  | [], _ :: _, _ :: _, _, _ => by simp [strLtB]
  | _ :: _, [], _, h1, _ => by simp [strLtB] at h1
  | _ :: _, _ :: _, [], _, h2 => by simp [strLtB] at h2
  | a :: as, b :: bs, c :: cs, h1, h2 => by
    simp only [strLtB] at h1 h2 ⊢
    by_cases hab : a < b
    · by_cases hbc : b < c
      · rw [if_pos (lt_trans hab hbc)]
      · by_cases hcb : c < b
        · rw [if_neg hbc, if_pos hcb] at h2
          exact absurd h2 (by simp)
        · have hbceq : b = c := le_antisymm (not_lt.mp hcb) (not_lt.mp hbc)
          subst hbceq
          rw [if_pos hab]
    · by_cases hba : b < a
      · rw [if_neg hab, if_pos hba] at h1
        exact absurd h1 (by simp)
      · have habeq : a = b := le_antisymm (not_lt.mp hba) (not_lt.mp hab)
        subst habeq
        rw [if_neg hab, if_neg hba] at h1
        by_cases hac : a < c
        · rw [if_pos hac]
        · by_cases hca : c < a
          · rw [if_neg hac, if_pos hca] at h2
            exact absurd h2 (by simp)
          · have haceq : a = c := le_antisymm (not_lt.mp hca) (not_lt.mp hac)
            subst haceq
            rw [if_neg hac, if_neg hca] at h2 ⊢
            exact strLtB_trans as bs cs h1 h2

theorem strLtB_irrefl : ∀ a : Str, strLtB a a = false
  | [] => rfl
  | a :: as => by simp [strLtB, lt_irrefl, strLtB_irrefl as]

theorem SLe_iff {a b : Str} : SLe a b ↔ strLtB b a = false := by
  simp [SLe, strLeB]

instance : IsTotal Str SLe :=
  ⟨fun a b => by
    rcases strLtB_trichot a b with h | h | h
    · left
      rw [SLe_iff]
      cases hba : strLtB b a with
      | false => rfl
      | true => exact absurd (strLtB_asymm a b h hba) (fun f => f)
    · subst h
      left
      rw [SLe_iff, strLtB_irrefl]
    · right
      rw [SLe_iff]
      cases hab : strLtB a b with
      | false => rfl
      | true => exact absurd (strLtB_asymm b a h hab) (fun f => f)⟩

instance : IsTrans Str SLe :=
  ⟨fun a b c hab hbc => by
    rw [SLe_iff] at hab hbc ⊢
    cases hca : strLtB c a with
    | false => rfl
    | true =>
      rcases strLtB_trichot a b with h | h | h
      · have := strLtB_trans c a b hca h
        rw [this] at hbc
        exact absurd hbc (by simp)
      · subst h
        rw [hca] at hbc
        exact absurd hbc (by simp)
      · rw [h] at hab
        exact absurd hab (by simp)⟩

theorem strLtB_of_le_of_ne {a b : Str} (hle : SLe a b) (hne : a ≠ b) :
    strLtB a b = true := by
  rcases strLtB_trichot a b with h | h | h
  · exact h
  · exact absurd h hne
  · rw [SLe_iff] at hle
    rw [hle] at h
    exact absurd h (by simp)

theorem pySortedSet_sorted (l : List Str) : List.Sorted SLe (pySortedSet l) :=
  List.sorted_insertionSort SLe l.dedup

theorem pySortedSet_nodup (l : List Str) : (pySortedSet l).Nodup :=
  ((List.perm_insertionSort SLe l.dedup).nodup_iff).mpr (List.nodup_dedup l)

theorem pySortedSet_mem {x : Str} {l : List Str} : x ∈ pySortedSet l ↔ x ∈ l := by
  rw [pySortedSet, List.mem_insertionSort, List.mem_dedup]

/-- The output of `pySortedSet` is strictly increasing in the code-point
lexicographic order: sorted with no duplicates. -/
theorem pySortedSet_pairwise_lt (l : List Str) :
    List.Pairwise (fun a b => strLtB a b = true) (pySortedSet l) :=
  ((pySortedSet_sorted l).and (pySortedSet_nodup l)).imp
    (fun h => strLtB_of_le_of_ne h.1 h.2)

theorem limitAutoTags_length (limit : Nat) : ∀ (cands ek keys acc : List Str),
    acc.length < limit → (limitAutoTags limit ek keys acc cands).length ≤ limit
  | [], _, _, acc, h => by
    simp only [limitAutoTags]
    omega
  | raw :: rest, ek, keys, acc, h => by
    simp only [limitAutoTags]
    split
    · exact limitAutoTags_length limit rest ek keys acc h
    · split
      · exact limitAutoTags_length limit rest ek keys acc h
      · split
        · simp only [List.length_append, List.length_singleton]
          omega
        · refine limitAutoTags_length limit rest ek _ _ ?_
          simp only [List.length_append, List.length_singleton] at *
          omega

/-- Entries of the final sorted tag set that are not explicit tags all come
from the capped auto list, so there are at most as many of them. -/
theorem pySortedSet_extra_le (ex auto : List Str) :
    ((pySortedSet (ex ++ auto)).filter (fun t => decide (t ∉ ex))).length ≤
      auto.length := by
  have hnd : ((pySortedSet (ex ++ auto)).filter (fun t => decide (t ∉ ex))).Nodup :=
    (pySortedSet_nodup (ex ++ auto)).filter _
  have hsub : ((pySortedSet (ex ++ auto)).filter (fun t => decide (t ∉ ex))) ⊆ auto := by
    intro t ht
    rw [List.mem_filter] at ht
    have hmem : t ∈ ex ++ auto := pySortedSet_mem.mp ht.1
    have hnot : t ∉ ex := by simpa using ht.2
    rcases List.mem_append.mp hmem with h | h
    · exact absurd h hnot
    · exact h
  exact (List.subperm_of_subset hnd hsub).length_le

/-- The final tag set of `apply_rules` is the sorted deduplication of the
explicit tags plus at most three capped auto tags. -/
theorem apply_rules_tags_shape (ctx : RuleInput) (rules : Rules) :
    ∃ auto : List Str,
      (apply_rules ctx rules).tags =
        pySortedSet (((ctx.caption.explicit_tags.map pyStrip).filter (· ≠ [])) ++ auto) ∧
      auto.length ≤ 3 :=
  ⟨_, rfl, limitAutoTags_length 3 _ _ _ _ (by decide)⟩

/-- C6 counterexample: the explicit caption tags `Alpha` and `ALPHA` are
kept verbatim (the engine deduplicates by normalized slug only among auto
tags), so the final tag list has two entries with equal normalized slugs. -/
theorem C6_counterexample :
    (apply_rules (testCtx "x\n#태그:Alpha,ALPHA" "q") emptyRules).tags =
      [strOf "ALPHA", strOf "Alpha"] ∧
    ¬ List.Pairwise (fun a b => normalize_tag_key a ≠ normalize_tag_key b)
      (apply_rules (testCtx "x\n#태그:Alpha,ALPHA" "q") emptyRules).tags := by
  decide

/-- C6 (amended): `apply_rules` is deterministic; its tag list is strictly
increasing in the code-point lexicographic order (hence sorted with no
exact duplicates) and contains at most 3 entries beyond the explicit
caption tags.  Distinct explicit caption tags may share a normalized slug
(see the counterexample); only the auto tags are deduplicated by slug. -/
theorem C6_tags_amended (ctx : RuleInput) (rules : Rules) :
    apply_rules ctx rules = apply_rules ctx rules ∧
    List.Pairwise (fun a b => strLtB a b = true) (apply_rules ctx rules).tags ∧
    ((apply_rules ctx rules).tags.filter
      (fun t => decide (t ∉ (ctx.caption.explicit_tags.map pyStrip).filter (· ≠ [])))).length
      ≤ 3 := by
  refine ⟨rfl, ?_, ?_⟩
  · obtain ⟨auto, he, _⟩ := apply_rules_tags_shape ctx rules
    rw [he]
    exact pySortedSet_pairwise_lt _
  · obtain ⟨auto, he, hlen⟩ := apply_rules_tags_shape ctx rules
    rw [he]
    exact le_trans (pySortedSet_extra_le _ _) hlen

/-! ### Review-reason structure of `apply_rules` -/

theorem keywordPhase_reasons (ctx : RuleInput) (rules : Rules)
    (al : List (Str × Str)) (dc : Str) (s : EngineSeed) :
    (keywordPhase ctx rules al dc s).review_reasons = s.review_reasons := by
  simp only [keywordPhase]
  split
  · rfl
  · split
    · rfl
    · rfl

theorem explicitSeed_reasons (al : List (Str × Str)) (dc : Str) (e : Option Str) :
    (explicitCategorySeed al dc e).review_reasons = [] ∨
    (explicitCategorySeed al dc e).review_reasons = [strOf "CATEGORY_OUT_OF_RULESET"] := by
  cases e with
  | none => exact .inl rfl
  | some c =>
    simp only [explicitCategorySeed]
    split
    · split
      · exact .inl rfl
      · exact .inr rfl
    · exact .inl rfl

theorem categoryTriple_reasons (ctx : RuleInput) (rules : Rules)
    (al : List (Str × Str)) (dc : Str) (seed : EngineSeed) (auto2 rr : List Str) :
    ∃ x, (categoryTriple ctx rules al dc seed auto2 rr).2.2 = rr ++ x ∧
      (x = [] ∨ x = [strOf "CATEGORY_OUT_OF_RULESET"] ∨ x = [strOf "CLASSIFY_FAIL"]) := by
  simp only [categoryTriple]
  split
  · exact ⟨[], by simp, .inl rfl⟩
  · split
    · split
      · split
        · exact ⟨[], by simp, .inl rfl⟩
        · exact ⟨[strOf "CATEGORY_OUT_OF_RULESET"], rfl, .inr (.inl rfl)⟩
      · exact ⟨[strOf "CLASSIFY_FAIL"], rfl, .inr (.inr rfl)⟩
    · exact ⟨[strOf "CLASSIFY_FAIL"], rfl, .inr (.inr rfl)⟩

theorem applyRulesPost_reasons (ctx : RuleInput) (rules : Rules)
    (al : List (Str × Str)) (dc : Str) (seed : EngineSeed) :
    ∃ extra : List Str,
      (applyRulesPost ctx rules al dc seed).review_reasons =
        (seed.review_reasons ++
          (if (datePhase ctx).2 then [strOf "DATE_MISSING"] else [])) ++ extra ∧
      (∀ r ∈ extra, r = strOf "CATEGORY_OUT_OF_RULESET" ∨ r = strOf "CLASSIFY_FAIL") := by
  set rr := seed.review_reasons ++
    (if (datePhase ctx).2 then [strOf "DATE_MISSING"] else []) with hrr
  set cr := categoryTriple ctx rules al dc seed (autoCandidates ctx seed) rr with hcr
  obtain ⟨x, hx, hxc⟩ :=
    categoryTriple_reasons ctx rules al dc seed (autoCandidates ctx seed) rr
  rw [← hcr] at hx
  have hgoal : (applyRulesPost ctx rules al dc seed).review_reasons =
      if ¬cr.2.1 = true ∧ strOf "CLASSIFY_FAIL" ∉ cr.2.2 then
        cr.2.2 ++ [strOf "CLASSIFY_FAIL"]
      else cr.2.2 := rfl
  refine ⟨if ¬cr.2.1 = true ∧ strOf "CLASSIFY_FAIL" ∉ cr.2.2 then
      x ++ [strOf "CLASSIFY_FAIL"] else x, ?_, ?_⟩
  · rw [hgoal]
    by_cases hg : ¬cr.2.1 = true ∧ strOf "CLASSIFY_FAIL" ∉ cr.2.2
    · rw [if_pos hg, if_pos hg, hx, List.append_assoc]
    · rw [if_neg hg, if_neg hg, hx]
  · intro r hr
    by_cases hg : ¬cr.2.1 = true ∧ strOf "CLASSIFY_FAIL" ∉ cr.2.2
    · rw [if_pos hg] at hr
      rcases List.mem_append.mp hr with h | h
      · rcases hxc with h2 | h2 | h2 <;> subst h2 <;> simp_all
      · right
        simpa using h
    · rw [if_neg hg] at hr
      rcases hxc with h2 | h2 | h2 <;> subst h2 <;> simp_all

theorem apply_rules_reasons_decomp (ctx : RuleInput) (rules : Rules) :
    ∃ pre extra : List Str,
      (apply_rules ctx rules).review_reasons =
        (pre ++ (if (datePhase ctx).2 then [strOf "DATE_MISSING"] else [])) ++ extra ∧
      (pre = [] ∨ pre = [strOf "CATEGORY_OUT_OF_RULESET"]) ∧
      (∀ r ∈ extra, r = strOf "CATEGORY_OUT_OF_RULESET" ∨ r = strOf "CLASSIFY_FAIL") := by
  obtain ⟨extra, he, hex⟩ := applyRulesPost_reasons ctx rules
    (defaultAndAllowed rules).2 (defaultAndAllowed rules).1
    (keywordPhase ctx rules (defaultAndAllowed rules).2 (defaultAndAllowed rules).1
      (explicitCategorySeed (defaultAndAllowed rules).2 (defaultAndAllowed rules).1
        ctx.caption.explicit_category))
  rw [keywordPhase_reasons] at he
  exact ⟨_, extra, he,
    explicitSeed_reasons (defaultAndAllowed rules).2 (defaultAndAllowed rules).1
      ctx.caption.explicit_category, hex⟩

/-- The rule engine never emits DUPLICATE_SUSPECT itself. -/
theorem apply_rules_no_DS (ctx : RuleInput) (rules : Rules) :
    strOf "DUPLICATE_SUSPECT" ∉ (apply_rules ctx rules).review_reasons := by
  obtain ⟨pre, extra, he, hpre, hex⟩ := apply_rules_reasons_decomp ctx rules
  rw [he]
  intro hmem
  rcases List.mem_append.mp hmem with h | h
  · rcases List.mem_append.mp h with h2 | h2
    · rcases hpre with h3 | h3 <;> subst h3 <;> simp_all
      exact absurd h2 (by decide)
    · split at h2 <;> simp_all
      exact absurd h2 (by decide)
  · rcases hex _ h with h2 | h2 <;> exact absurd h2 (by decide)

/-- DATE_MISSING is in the output exactly when no date candidate parsed. -/
theorem apply_rules_DM_iff (ctx : RuleInput) (rules : Rules) :
    (strOf "DATE_MISSING" ∈ (apply_rules ctx rules).review_reasons ↔
      (datePhase ctx).2 = true) := by
  obtain ⟨pre, extra, he, hpre, hex⟩ := apply_rules_reasons_decomp ctx rules
  rw [he]
  constructor
  · intro hmem
    rcases List.mem_append.mp hmem with h | h
    · rcases List.mem_append.mp h with h2 | h2
      · rcases hpre with h3 | h3 <;> subst h3 <;> simp_all
        exact absurd h2 (by decide)
      · split at h2 <;> simp_all
    · rcases hex _ h with h2 | h2 <;> exact absurd h2 (by decide)
  · intro hdm
    rw [hdm]
    simp

theorem pipeline_reasons_false (rr : List Str) :
    pipeline_review_reasons rr false = rr := by
  simp [pipeline_review_reasons]

theorem pipeline_reasons_true (rr : List Str)
    (h : strOf "DUPLICATE_SUSPECT" ∉ rr) :
    pipeline_review_reasons rr true = rr ++ [strOf "DUPLICATE_SUSPECT"] := by
  simp [pipeline_review_reasons, h]

/-- C8: DUPLICATE_SUSPECT is attached to the new document exactly when the
content store returned an already-existing File that had at least one
DocumentFile link at store time; a pre-existing File with zero links does
not add the reason. -/
theorem C8_duplicate_suspect (st : StoreState) (job : StoreJob) (ctx : RuleInput)
    (rules : Rules) (res : StoreResult) (st2 : StoreState)
    (hstore : store_file st job = .ok (res, st2)) :
    (strOf "DUPLICATE_SUSPECT" ∈
        pipeline_review_reasons (apply_rules ctx rules).review_reasons
          res.duplicate_suspect ↔
      ∃ f, find_by_checksum st.files job.temp_checksum = some f ∧
        0 < linked_count st f.id) := by
  cases htemp : job.temp_exists with
  | false =>
    rw [store_file] at hstore
    simp [htemp] at hstore
  | true =>
    cases hfind : find_by_checksum st.files job.temp_checksum with
    | some f =>
      rw [store_file_found st job f htemp hfind] at hstore
      simp only [Except.ok.injEq, Prod.mk.injEq] at hstore
      have hres : res.duplicate_suspect = decide (0 < linked_count st f.id) := by
        rw [← hstore.1]
      by_cases hlc : 0 < linked_count st f.id
      · have hdup : res.duplicate_suspect = true := by simp [hres, hlc]
        rw [hdup, pipeline_reasons_true _ (apply_rules_no_DS ctx rules)]
        constructor
        · intro _
          exact ⟨f, rfl, hlc⟩
        · intro _
          simp
      · have hdup : res.duplicate_suspect = false := by simp [hres, hlc]
        rw [hdup, pipeline_reasons_false]
        constructor
        · intro hmem
          exact absurd hmem (apply_rules_no_DS ctx rules)
        · rintro ⟨f2, hf2, hlc2⟩
          injection hf2 with h
          subst h
          exact absurd hlc2 hlc
    | none =>
      obtain ⟨row, hrc, hnew⟩ := store_file_new st job htemp hfind
      rw [hnew] at hstore
      simp only [Except.ok.injEq, Prod.mk.injEq] at hstore
      have hdup : res.duplicate_suspect = false := by rw [← hstore.1]
      rw [hdup, pipeline_reasons_false]
      constructor
      · intro hmem
        exact absurd hmem (apply_rules_no_DS ctx rules)
      · rintro ⟨f2, hf2, _⟩
        exact Option.noConfusion hf2

/-- The concrete store used by the C8 witness: one file with checksum
`abcd` already linked by one document. -/
def c8St : StoreState :=
  { files := [⟨0, strOf "abcd", strOf "ab/cd/abcd.bin", strOf "f.bin"⟩]
    nextId := 1
    backendWrites := [strOf "ab/cd/abcd.bin"]
    links := [(5, 0)] }

def c8Job : StoreJob :=
  { temp_exists := true, temp_checksum := strOf "abcd", temp_size := 3
    payload_filename := none, temp_name := strOf "g.bin" }

/-- Witness for C8_duplicate_suspect: re-uploading linked bytes flags the
duplicate. -/
theorem C8_duplicate_suspect_witness :
    store_file c8St c8Job = .ok
      ({ file := ⟨0, strOf "abcd", strOf "ab/cd/abcd.bin", strOf "f.bin"⟩
         checksum_sha256 := strOf "abcd", size_bytes := 3,
         duplicate_suspect := true }, c8St) ∧
    (strOf "DUPLICATE_SUSPECT" ∈
        pipeline_review_reasons
          (apply_rules (testCtx "x" "g.bin") testRules).review_reasons true ↔
      ∃ f, find_by_checksum c8St.files c8Job.temp_checksum = some f ∧
        0 < linked_count c8St f.id) :=
  ⟨rfl,
   C8_duplicate_suspect c8St c8Job (testCtx "x" "g.bin") testRules
     { file := ⟨0, strOf "abcd", strOf "ab/cd/abcd.bin", strOf "f.bin"⟩
       checksum_sha256 := strOf "abcd", size_bytes := 3, duplicate_suspect := true }
     c8St rfl⟩

/-- C7: event dates.  The engine event date is the first candidate that
parses — explicit caption date, raw caption, title, filename, producer
metadata text, in that order — falling back to the ingestion date;
DATE_MISSING is emitted exactly when no candidate parses; the century
inferred for a two-digit year never puts the year more than one past the
ingestion year; and a text only parses through one of the five supported
patterns. -/
theorem C7_event_date (ctx : RuleInput) (rules : Rules)
    (h1 : 2000 ≤ ctx.ingested_at.year) (h2 : ctx.ingested_at.year ≤ 2099) :
    ((apply_rules ctx rules).event_date =
      (([ctx.caption.explicit_date, some ctx.caption.caption_raw, some ctx.title,
          some ctx.filename, ctx.metadata_date_text].findSome?
            (fun t => parse_event_date_from_text t ctx.ingested_at)).getD
        ctx.ingested_at)) ∧
    (strOf "DATE_MISSING" ∈ (apply_rules ctx rules).review_reasons ↔
      [ctx.caption.explicit_date, some ctx.caption.caption_raw, some ctx.title,
        some ctx.filename, ctx.metadata_date_text].findSome?
          (fun t => parse_event_date_from_text t ctx.ingested_at) = none) ∧
    (∀ yy : Int, 0 ≤ yy → yy ≤ 99 →
      infer_century yy ctx.ingested_at ≤ ctx.ingested_at.year + 1) ∧
    (∀ (t : Str) (d : PDate),
      parse_event_date_from_text (some t) ctx.ingested_at = some d →
      (fourDigitSearches t).any (fun r => r.isSome) = true ∨
        (searchYY false t).isSome = true) := by
  have hdp1 : (datePhase ctx).1 =
      (([ctx.caption.explicit_date, some ctx.caption.caption_raw, some ctx.title,
          some ctx.filename, ctx.metadata_date_text].findSome?
            (fun t => parse_event_date_from_text t ctx.ingested_at)).getD
        ctx.ingested_at) := by
    simp only [datePhase]
    split
    · next d heq => rw [heq]; rfl
    · next heq => rw [heq]; rfl
  have hdp2 : ((datePhase ctx).2 = true ↔
      [ctx.caption.explicit_date, some ctx.caption.caption_raw, some ctx.title,
        some ctx.filename, ctx.metadata_date_text].findSome?
          (fun t => parse_event_date_from_text t ctx.ingested_at) = none) := by
    simp only [datePhase]
    split
    · next d heq => simp [heq]
    · next heq => simp [heq]
  refine ⟨hdp1, (apply_rules_DM_iff ctx rules).trans hdp2, ?_, ?_⟩
  · intro yy hy0 hy99
    simp only [infer_century]
    split <;> split <;> omega
  · intro t d hp
    simp only [parse_event_date_from_text] at hp
    split at hp
    · exact absurd hp (by simp)
    · cases hfv : (fourDigitSearches t).findSome? (fun r =>
        match r with
        | some (y, m, d) => safe_date y m d
        | none => none) with
      | some d2 =>
        obtain ⟨a, hmem, ha⟩ := List.exists_of_findSome?_eq_some hfv
        left
        rw [List.any_eq_true]
        refine ⟨a, hmem, ?_⟩
        cases a with
        | some ymd => rfl
        | none => simp at ha
      | none =>
        rw [hfv] at hp
        cases hyy : searchYY false t with
        | some ymd =>
          right
          rfl
        | none =>
          rw [hyy] at hp
          simp at hp

/-- Witness for C7_event_date: ingestion in 2026 and the two-digit year 26. -/
theorem C7_event_date_witness :
    (2000 ≤ (testCtx "x" "a.pdf").ingested_at.year) ∧
    infer_century 26 (testCtx "x" "a.pdf").ingested_at ≤
      (testCtx "x" "a.pdf").ingested_at.year + 1 :=
  ⟨by decide,
   (C7_event_date (testCtx "x" "a.pdf") testRules (by decide) (by decide)).2.2.1
     26 (by decide) (by decide)⟩

/-! ### Last-occurrence semantics of the caption metadata loop -/

theorem getLast?_cons_of_some {α : Type} {xs : List α} {w : α} (v : α)
    (h : xs.getLast? = some w) : (v :: xs).getLast? = some w := by
  cases xs with
  | nil => simp at h
  | cons y ys => rw [List.getLast?_cons_cons]; exact h

theorem isPrefixOf_excl_second {c1 c2 : Char} {k1 k2 : Str} (hne : c1 ≠ c2) :
    ∀ s : Str, ('#' :: c1 :: k1).isPrefixOf s = true →
      ('#' :: c2 :: k2).isPrefixOf s = false
  | [], h => by simp [List.isPrefixOf] at h
  | [_], h => by simp [List.isPrefixOf] at h
  | a :: b :: rest, h => by
    simp only [List.isPrefixOf, Bool.and_eq_true, beq_iff_eq] at h
    obtain ⟨ha, hb, _⟩ := h
    subst ha
    subst hb
    simp [List.isPrefixOf, Ne.symm hne]

theorem matchMetaLine_none_of_prefix_false {kw s : Str}
    (h : kw.isPrefixOf s = false) : matchMetaLine kw s = none := by
  simp [matchMetaLine, h]

theorem matchCat_date_excl (s : Str) (h : (matchCategoryLine s).isSome = true) :
    matchDateLine s = none := by
  by_cases hp : (strOf "#분류").isPrefixOf s = true
  · exact matchMetaLine_none_of_prefix_false
      (@isPrefixOf_excl_second '분' '날' (strOf "류") (strOf "짜") (by decide) s hp)
  · simp only [Bool.not_eq_true] at hp
    simp [matchCategoryLine, matchMetaLine, hp] at h

theorem matchCat_tags_excl (s : Str) (h : (matchCategoryLine s).isSome = true) :
    matchTagsLine s = none := by
  by_cases hp : (strOf "#분류").isPrefixOf s = true
  · exact matchMetaLine_none_of_prefix_false
      (@isPrefixOf_excl_second '분' '태' (strOf "류") (strOf "그") (by decide) s hp)
  · simp only [Bool.not_eq_true] at hp
    simp [matchCategoryLine, matchMetaLine, hp] at h

theorem matchDate_tags_excl (s : Str) (h : (matchDateLine s).isSome = true) :
    matchTagsLine s = none := by
  by_cases hp : (strOf "#날짜").isPrefixOf s = true
  · exact matchMetaLine_none_of_prefix_false
      (@isPrefixOf_excl_second '날' '태' (strOf "짜") (strOf "그") (by decide) s hp)
  · simp only [Bool.not_eq_true] at hp
    simp [matchDateLine, matchMetaLine, hp] at h

/-- The caption metadata loop realizes last-occurrence-wins semantics:
folding `captionMetaStep` over the body lines yields, per kind, the value
of the last matching line (stripped), and the description collects exactly
the lines matching no metadata pattern. -/
theorem foldMeta_spec : ∀ (body : List Str) (c0 d0 : Option Str) (t0 ds0 : List Str),
    body.foldl captionMetaStep (c0, d0, t0, ds0) =
      ((match (body.filterMap (fun l => matchCategoryLine (pyStrip l))).getLast? with
        | some v => some (pyStrip v)
        | none => c0),
       (match (body.filterMap (fun l => matchDateLine (pyStrip l))).getLast? with
        | some v => some (pyStrip v)
        | none => d0),
       (match (body.filterMap (fun l => matchTagsLine (pyStrip l))).getLast? with
        | some v => splitTagValues v
        | none => t0),
       ds0 ++ body.filter (fun l => (matchCategoryLine (pyStrip l)).isNone &&
         (matchDateLine (pyStrip l)).isNone && (matchTagsLine (pyStrip l)).isNone))
  | [], c0, d0, t0, ds0 => by simp
  | l :: rest, c0, d0, t0, ds0 => by
    rw [List.foldl_cons]
    cases hc : matchCategoryLine (pyStrip l) with
    | some v =>
      have hd : matchDateLine (pyStrip l) = none :=
        matchCat_date_excl _ (by rw [hc]; rfl)
      have ht : matchTagsLine (pyStrip l) = none :=
        matchCat_tags_excl _ (by rw [hc]; rfl)
      have hstep : captionMetaStep (c0, d0, t0, ds0) l = (some (pyStrip v), d0, t0, ds0) := by
        simp [captionMetaStep, hc]
      rw [hstep, foldMeta_spec rest (some (pyStrip v)) d0 t0 ds0]
      simp only [List.filterMap_cons, List.filter_cons, hc, hd, ht, Option.isNone_some,
        Bool.false_and, if_false, Prod.mk.injEq]
      refine ⟨?_, trivial, trivial, by simp⟩
      cases hx : (rest.filterMap (fun l => matchCategoryLine (pyStrip l))).getLast? with
      | some w => rw [getLast?_cons_of_some v hx]
      | none =>
        rw [List.getLast?_eq_none_iff.mp hx]
        rfl
    | none =>
      cases hd : matchDateLine (pyStrip l) with
      | some v =>
        have ht : matchTagsLine (pyStrip l) = none :=
          matchDate_tags_excl _ (by rw [hd]; rfl)
        have hstep : captionMetaStep (c0, d0, t0, ds0) l = (c0, some (pyStrip v), t0, ds0) := by
          simp [captionMetaStep, hc, hd]
        rw [hstep, foldMeta_spec rest c0 (some (pyStrip v)) t0 ds0]
        simp only [List.filterMap_cons, List.filter_cons, hc, hd, ht, Option.isNone_some,
          Option.isNone_none, Bool.true_and, Bool.false_and, Bool.and_false, if_false,
          Prod.mk.injEq]
        refine ⟨trivial, ?_, trivial, by simp⟩
        cases hx : (rest.filterMap (fun l => matchDateLine (pyStrip l))).getLast? with
        | some w => rw [getLast?_cons_of_some v hx]
        | none =>
          rw [List.getLast?_eq_none_iff.mp hx]
          rfl
      | none =>
        cases ht : matchTagsLine (pyStrip l) with
        | some v =>
          have hstep : captionMetaStep (c0, d0, t0, ds0) l =
              (c0, d0, splitTagValues v, ds0) := by
            simp [captionMetaStep, hc, hd, ht]
          rw [hstep, foldMeta_spec rest c0 d0 (splitTagValues v) ds0]
          simp only [List.filterMap_cons, List.filter_cons, hc, hd, ht, Option.isNone_some,
            Option.isNone_none, Bool.true_and, Bool.and_false, if_false, Prod.mk.injEq]
          refine ⟨trivial, trivial, ?_, by simp⟩
          cases hx : (rest.filterMap (fun l => matchTagsLine (pyStrip l))).getLast? with
          | some w => rw [getLast?_cons_of_some v hx]
          | none =>
            rw [List.getLast?_eq_none_iff.mp hx]
            rfl
        | none =>
          have hstep : captionMetaStep (c0, d0, t0, ds0) l =
              (c0, d0, t0, ds0 ++ [l]) := by
            simp [captionMetaStep, hc, hd, ht]
          rw [hstep, foldMeta_spec rest c0 d0 t0 (ds0 ++ [l])]
          simp only [List.filterMap_cons, List.filter_cons, hc, hd, ht, Option.isNone_none,
            Bool.true_and, if_true, Prod.mk.injEq, List.append_assoc, List.singleton_append]

/-- C10: for every caption, each metadata kind takes the value of the last
matching body line (earlier occurrences are discarded), and no matching
metadata line reaches the description, which keeps exactly the
non-matching body lines. -/
theorem C10_caption_meta_last_wins (caption : Option Str) (filename : Str) :
    ((parse_caption caption filename).explicit_category =
      (match ((captionTitleAndBody caption filename).2.filterMap
          (fun l => matchCategoryLine (pyStrip l))).getLast? with
        | some v => some (pyStrip v)
        | none => none)) ∧
    ((parse_caption caption filename).explicit_date =
      (match ((captionTitleAndBody caption filename).2.filterMap
          (fun l => matchDateLine (pyStrip l))).getLast? with
        | some v => some (pyStrip v)
        | none => none)) ∧
    ((parse_caption caption filename).explicit_tags =
      (match ((captionTitleAndBody caption filename).2.filterMap
          (fun l => matchTagsLine (pyStrip l))).getLast? with
        | some v => splitTagValues v
        | none => [])) ∧
    ((parse_caption caption filename).description =
      pyStrip (joinWith (strOf "\n")
        ((captionTitleAndBody caption filename).2.filter
          (fun l => (matchCategoryLine (pyStrip l)).isNone &&
            (matchDateLine (pyStrip l)).isNone &&
            (matchTagsLine (pyStrip l)).isNone)))) := by
  have hfold := foldMeta_spec (captionTitleAndBody caption filename).2 none none [] []
  refine ⟨?_, ?_, ?_, ?_⟩
  · show ((captionTitleAndBody caption filename).2.foldl captionMetaStep
      (none, none, [], [])).1 = _
    rw [hfold]
  · show ((captionTitleAndBody caption filename).2.foldl captionMetaStep
      (none, none, [], [])).2.1 = _
    rw [hfold]
  · show ((captionTitleAndBody caption filename).2.foldl captionMetaStep
      (none, none, [], [])).2.2.1 = _
    rw [hfold]
  · show pyStrip (joinWith (strOf "\n")
      ((captionTitleAndBody caption filename).2.foldl captionMetaStep
        (none, none, [], [])).2.2.2) = _
    rw [hfold]
    rfl

/-! ### C5: explicit caption category acceptance -/

theorem lookupA_mem {k v : Str} {m : List (Str × Str)} (h : lookupA k m = some v) :
    (k, v) ∈ m := by
  simp only [lookupA, Option.map_eq_some'] at h
  obtain ⟨p, hp, hv⟩ := h
  have hk : p.1 = k := by simpa using List.find?_some hp
  have hmem := List.mem_of_find?_eq_some hp
  cases p
  simp_all

theorem lookupA_isSome_of_mem {k v : Str} {m : List (Str × Str)} (h : (k, v) ∈ m) :
    (lookupA k m).isSome := by
  simp only [lookupA]
  rcases hf : m.find? (fun p => p.1 = k) with _ | p
  · have := List.find?_eq_none.mp hf (k, v) h
    simp at this
  · rw [hf]
    rfl

theorem allowedInsertStep_inv {m : List (Str × Str)}
    (h : ∀ p ∈ m, normalize_tag_key p.2 = p.1) (raw : Str) :
    ∀ p ∈ allowedInsertStep m raw, normalize_tag_key p.2 = p.1 := by
  intro p hp
  simp only [allowedInsertStep] at hp
  split at hp
  · exact h p hp
  · split at hp
    · exact h p hp
    · rcases List.mem_append.mp hp with h2 | h2
      · exact h p h2
      · simp only [List.mem_singleton] at h2
        subst h2
        rfl

theorem foldl_allowedInsertStep_inv (l : List Str) :
    ∀ m : List (Str × Str), (∀ p ∈ m, normalize_tag_key p.2 = p.1) →
      ∀ p ∈ l.foldl allowedInsertStep m, normalize_tag_key p.2 = p.1 := by
  induction l with
  | nil => intro m h; exact h
  | cons a t ih =>
    intro m h
    simp only [List.foldl_cons]
    exact ih _ (allowedInsertStep_inv h a)

theorem defaultNameOf_ne_nil (rules : Rules) : defaultNameOf rules ≠ [] := by
  cases hd : rules.default_category with
  | none =>
    simp only [defaultNameOf, hd]
    decide
  | some s =>
    simp only [defaultNameOf, hd]
    by_cases hs : pyStrip s ≠ []
    · rw [if_pos hs]
      exact hs
    · rw [if_neg hs]
      decide

/-- Every binding of the allowed-category map keys a canonical name by its
own normalization. -/
theorem allowed_key_inv (rules : Rules) :
    ∀ p ∈ (defaultAndAllowed rules).2, normalize_tag_key p.2 = p.1 := by
  have hb : ∀ p ∈ build_allowed_category_map rules, normalize_tag_key p.2 = p.1 :=
    foldl_allowedInsertStep_inv _ [] (fun p hp => absurd hp (List.not_mem_nil p))
  intro p hp
  rcases h : lookupA (normalize_tag_key (defaultNameOf rules)) (build_allowed_category_map rules)
    with _ | v
  · simp only [defaultAndAllowed, h, if_pos (defaultNameOf_ne_nil rules)] at hp
    rcases List.mem_append.mp hp with h2 | h2
    · exact hb p h2
    · simp only [List.mem_singleton] at h2
      subst h2
      rfl
  · simp only [defaultAndAllowed, h] at hp
    exact hb p hp

/-- The effective default category is always itself a value of the allowed
map. -/
theorem default_mem (rules : Rules) :
    ∃ k, (k, (defaultAndAllowed rules).1) ∈ (defaultAndAllowed rules).2 := by
  rcases h : lookupA (normalize_tag_key (defaultNameOf rules)) (build_allowed_category_map rules)
    with _ | v
  · refine ⟨normalize_tag_key (defaultNameOf rules), ?_⟩
    simp only [defaultAndAllowed, h, if_pos (defaultNameOf_ne_nil rules)]
    exact List.mem_append.mpr (Or.inr (List.mem_singleton.mpr rfl))
  · refine ⟨normalize_tag_key (defaultNameOf rules), ?_⟩
    simp only [defaultAndAllowed, h]
    exact lookupA_mem h

theorem resolve_mem {al : List (Str × Str)} {raw v : Str}
    (h : resolve_allowed_category al raw = some v) :
    (normalize_tag_key raw, v) ∈ al := by
  simp only [resolve_allowed_category] at h
  split at h
  · exact Option.noConfusion h
  · exact lookupA_mem h

theorem apply_rules_eq_post (ctx : RuleInput) (rules : Rules) :
    apply_rules ctx rules =
      applyRulesPost ctx rules (defaultAndAllowed rules).2 (defaultAndAllowed rules).1
        (keywordPhase ctx rules (defaultAndAllowed rules).2 (defaultAndAllowed rules).1
          (explicitCategorySeed (defaultAndAllowed rules).2 (defaultAndAllowed rules).1
            ctx.caption.explicit_category)) := rfl

theorem explicitSeed_category_mem (rules : Rules) (e : Option Str) :
    ∃ k, (k, (explicitCategorySeed (defaultAndAllowed rules).2 (defaultAndAllowed rules).1
      e).category) ∈ (defaultAndAllowed rules).2 := by
  cases e with
  | none => exact default_mem rules
  | some c =>
    simp only [explicitCategorySeed]
    by_cases hcne : c ≠ []
    · rw [if_pos hcne]
      rcases h : resolve_allowed_category (defaultAndAllowed rules).2 (pyStrip c) with _ | v
      · simp only [h]
        exact default_mem rules
      · simp only [h]
        exact ⟨_, resolve_mem h⟩
    · rw [if_neg hcne]
      exact default_mem rules

theorem keywordPhase_category_mem (ctx : RuleInput) (rules : Rules)
    (al : List (Str × Str)) (dc : Str) (s : EngineSeed)
    (hd : ∃ k, (k, dc) ∈ al) (hs : ∃ k, (k, s.category) ∈ al) :
    ∃ k, (k, (keywordPhase ctx rules al dc s).category) ∈ al := by
  simp only [keywordPhase]
  cases hb : s.category_resolved with
  | true =>
    rw [if_pos rfl]
    exact hs
  | false =>
    rw [if_neg (by simp)]
    rcases hh : keywordHit ctx rules with _ | rule
    · simp only [hh]
      exact hs
    · simp only [hh]
      rcases hrc : rule.category with _ | c2
      · simp only [hrc]
        exact hd
      · simp only [hrc]
        rcases hr : resolve_allowed_category al (pyStrip c2) with _ | v
        · simp only [hr, Option.getD_none]
          exact hd
        · simp only [hr, Option.getD_some]
          exact ⟨_, resolve_mem hr⟩

theorem applyRulesPost_category_mem (ctx : RuleInput) (rules : Rules)
    (al : List (Str × Str)) (dc : Str) (s : EngineSeed)
    (hs : ∃ k, (k, s.category) ∈ al) :
    ∃ k, (k, (applyRulesPost ctx rules al dc s).category) ∈ al := by
  simp only [applyRulesPost, categoryTriple]
  cases hb : s.category_resolved with
  | true =>
    rw [if_pos rfl]
    exact hs
  | false =>
    rw [if_neg (by simp)]
    rcases h : infer_category_from_tags ((ctx.caption.explicit_tags.map pyStrip).filter (· ≠ []))
        (autoCandidates ctx s) rules dc false with _ | c
    · simp only [h]
      exact hs
    · simp only [h]
      by_cases hpc : pyStrip c ≠ []
      · rw [if_pos hpc]
        rcases h2 : resolve_allowed_category al (pyStrip c) with _ | v
        · simp only [h2]
          exact hs
        · simp only [h2]
          exact ⟨_, resolve_mem h2⟩
      · rw [if_neg hpc]
        exact hs

/-- The category returned by the rule engine is always a canonical value of
the allowed-category map. -/
theorem apply_rules_category_mem (ctx : RuleInput) (rules : Rules) :
    ∃ k, (k, (apply_rules ctx rules).category) ∈ (defaultAndAllowed rules).2 := by
  rw [apply_rules_eq_post]
  exact applyRulesPost_category_mem ctx rules _ _ _
    (keywordPhase_category_mem ctx rules _ _ _ (default_mem rules)
      (explicitSeed_category_mem rules ctx.caption.explicit_category))

theorem keywordPhase_resolved (ctx : RuleInput) (rules : Rules) (al : List (Str × Str))
    (dc : Str) (s : EngineSeed) (h : s.category_resolved = true) :
    keywordPhase ctx rules al dc s = s := by
  simp [keywordPhase, h]

theorem applyRulesPost_category_resolved (ctx : RuleInput) (rules : Rules)
    (al : List (Str × Str)) (dc : Str) (s : EngineSeed) (h : s.category_resolved = true) :
    (applyRulesPost ctx rules al dc s).category = s.category := by
  simp [applyRulesPost, categoryTriple, h]

/-- `categoryTriple` ignores the threaded reasons except to append to them,
and ignores the seed except for its category and resolution flag. -/
theorem categoryTriple_rr (ctx : RuleInput) (rules : Rules) (al : List (Str × Str))
    (dc : Str) (s1 s2 : EngineSeed) (auto2 rr rr' : List Str)
    (hcat : s1.category = s2.category) (hres : s1.category_resolved = s2.category_resolved) :
    (categoryTriple ctx rules al dc s1 auto2 rr).1 =
      (categoryTriple ctx rules al dc s2 auto2 rr').1 ∧
    (categoryTriple ctx rules al dc s1 auto2 rr).2.1 =
      (categoryTriple ctx rules al dc s2 auto2 rr').2.1 ∧
    ∃ x, (categoryTriple ctx rules al dc s1 auto2 rr).2.2 = rr ++ x ∧
      (categoryTriple ctx rules al dc s2 auto2 rr').2.2 = rr' ++ x := by
  simp only [categoryTriple, hcat, hres]
  cases hb : s2.category_resolved with
  | true =>
    simp only [if_pos (rfl : (true = true))]
    exact ⟨by simp, by simp, [], by simp, by simp⟩
  | false =>
    simp only [if_neg (by simp : ¬(false = true))]
    rcases h : infer_category_from_tags ((ctx.caption.explicit_tags.map pyStrip).filter (· ≠ []))
        auto2 rules dc false with _ | c
    · simp only [h]
      exact ⟨by simp, by simp, [strOf "CLASSIFY_FAIL"], by simp, by simp⟩
    · simp only [h]
      by_cases hpc : pyStrip c ≠ []
      · rw [if_pos hpc, if_pos hpc]
        rcases h2 : resolve_allowed_category al (pyStrip c) with _ | v
        · simp only [h2]
          exact ⟨by simp, by simp, [strOf "CATEGORY_OUT_OF_RULESET"], by simp, by simp⟩
        · simp only [h2]
          exact ⟨by simp, by simp, [], by simp, by simp⟩
      · rw [if_neg hpc, if_neg hpc]
        exact ⟨by simp, by simp, [strOf "CLASSIFY_FAIL"], by simp, by simp⟩

/-- Prepending `CATEGORY_OUT_OF_RULESET` to a seed's reasons prepends it to
the output's reasons and changes nothing else in `applyRulesPost`. -/
theorem post_fields_cons (ctx : RuleInput) (rules : Rules) (al : List (Str × Str))
    (dc : Str) (cc : Str) (b : Bool) (rs auto : List Str) :
    (applyRulesPost ctx rules al dc
        ⟨cc, b, strOf "CATEGORY_OUT_OF_RULESET" :: rs, auto⟩).review_reasons =
      strOf "CATEGORY_OUT_OF_RULESET" ::
        (applyRulesPost ctx rules al dc ⟨cc, b, rs, auto⟩).review_reasons ∧
    (applyRulesPost ctx rules al dc
        ⟨cc, b, strOf "CATEGORY_OUT_OF_RULESET" :: rs, auto⟩).category =
      (applyRulesPost ctx rules al dc ⟨cc, b, rs, auto⟩).category ∧
    (applyRulesPost ctx rules al dc
        ⟨cc, b, strOf "CATEGORY_OUT_OF_RULESET" :: rs, auto⟩).tags =
      (applyRulesPost ctx rules al dc ⟨cc, b, rs, auto⟩).tags ∧
    (applyRulesPost ctx rules al dc
        ⟨cc, b, strOf "CATEGORY_OUT_OF_RULESET" :: rs, auto⟩).event_date =
      (applyRulesPost ctx rules al dc ⟨cc, b, rs, auto⟩).event_date := by
  have hA : autoCandidates ctx ⟨cc, b, strOf "CATEGORY_OUT_OF_RULESET" :: rs, auto⟩ =
      autoCandidates ctx ⟨cc, b, rs, auto⟩ := rfl
  obtain ⟨h1, h2, x, hx1, hx2⟩ := categoryTriple_rr ctx rules al dc
    ⟨cc, b, strOf "CATEGORY_OUT_OF_RULESET" :: rs, auto⟩ ⟨cc, b, rs, auto⟩
    (autoCandidates ctx ⟨cc, b, rs, auto⟩)
    ((strOf "CATEGORY_OUT_OF_RULESET" :: rs) ++
      (if (datePhase ctx).2 then [strOf "DATE_MISSING"] else []))
    (rs ++ (if (datePhase ctx).2 then [strOf "DATE_MISSING"] else [])) rfl rfl
  simp only [applyRulesPost, hA]
  set cr1 := categoryTriple ctx rules al dc ⟨cc, b, strOf "CATEGORY_OUT_OF_RULESET" :: rs, auto⟩
    (autoCandidates ctx ⟨cc, b, rs, auto⟩)
    ((strOf "CATEGORY_OUT_OF_RULESET" :: rs) ++
      (if (datePhase ctx).2 then [strOf "DATE_MISSING"] else [])) with hcr1
  set cr2 := categoryTriple ctx rules al dc ⟨cc, b, rs, auto⟩
    (autoCandidates ctx ⟨cc, b, rs, auto⟩)
    (rs ++ (if (datePhase ctx).2 then [strOf "DATE_MISSING"] else [])) with hcr2
  have hcc : cr1.2.2 = strOf "CATEGORY_OUT_OF_RULESET" :: cr2.2.2 := by
    rw [hx1, hx2]
    rfl
  have hiff : (strOf "CLASSIFY_FAIL" ∉ strOf "CATEGORY_OUT_OF_RULESET" :: cr2.2.2) ↔
      (strOf "CLASSIFY_FAIL" ∉ cr2.2.2) := by
    constructor
    · intro hnm hm
      exact hnm (List.mem_cons_of_mem _ hm)
    · intro hnm hm
      rcases List.mem_cons.mp hm with h | h
      · exact (by decide : strOf "CLASSIFY_FAIL" ≠ strOf "CATEGORY_OUT_OF_RULESET") h
      · exact hnm h
  refine ⟨?_, ?_, ?_, ?_⟩
  · rw [h2, hcc]
    by_cases hg : ¬cr2.2.1 = true ∧ strOf "CLASSIFY_FAIL" ∉ cr2.2.2
    · rw [if_pos hg, if_pos ⟨hg.1, hiff.mpr hg.2⟩]
      rfl
    · rw [if_neg hg, if_neg (fun hcon => hg ⟨hcon.1, hiff.mp hcon.2⟩)]
  · exact h1
  · rw [h1]
  · trivial

/-- Starting the keyword phase from a rejected-explicit seed only prepends
`CATEGORY_OUT_OF_RULESET` relative to starting from the no-explicit seed. -/
theorem post_keyword_cons (ctx : RuleInput) (rules : Rules) (al : List (Str × Str)) (dc : Str) :
    (applyRulesPost ctx rules al dc (keywordPhase ctx rules al dc
        ⟨dc, false, [strOf "CATEGORY_OUT_OF_RULESET"], []⟩)).review_reasons =
      strOf "CATEGORY_OUT_OF_RULESET" ::
        (applyRulesPost ctx rules al dc (keywordPhase ctx rules al dc
          ⟨dc, false, [], []⟩)).review_reasons ∧
    (applyRulesPost ctx rules al dc (keywordPhase ctx rules al dc
        ⟨dc, false, [strOf "CATEGORY_OUT_OF_RULESET"], []⟩)).category =
      (applyRulesPost ctx rules al dc (keywordPhase ctx rules al dc
        ⟨dc, false, [], []⟩)).category ∧
    (applyRulesPost ctx rules al dc (keywordPhase ctx rules al dc
        ⟨dc, false, [strOf "CATEGORY_OUT_OF_RULESET"], []⟩)).tags =
      (applyRulesPost ctx rules al dc (keywordPhase ctx rules al dc
        ⟨dc, false, [], []⟩)).tags ∧
    (applyRulesPost ctx rules al dc (keywordPhase ctx rules al dc
        ⟨dc, false, [strOf "CATEGORY_OUT_OF_RULESET"], []⟩)).event_date =
      (applyRulesPost ctx rules al dc (keywordPhase ctx rules al dc
        ⟨dc, false, [], []⟩)).event_date := by
  rcases hh : keywordHit ctx rules with _ | rule
  · have h1 : keywordPhase ctx rules al dc ⟨dc, false, [strOf "CATEGORY_OUT_OF_RULESET"], []⟩ =
        ⟨dc, false, [strOf "CATEGORY_OUT_OF_RULESET"], []⟩ := by
      simp [keywordPhase, hh]
    have h2 : keywordPhase ctx rules al dc ⟨dc, false, [], []⟩ = ⟨dc, false, [], []⟩ := by
      simp [keywordPhase, hh]
    rw [h1, h2]
    exact post_fields_cons ctx rules al dc dc false [] []
  · have h1 : keywordPhase ctx rules al dc ⟨dc, false, [strOf "CATEGORY_OUT_OF_RULESET"], []⟩ =
        ⟨match rule.category with
         | some c2 => (resolve_allowed_category al (pyStrip c2)).getD dc
         | none => dc, true, [strOf "CATEGORY_OUT_OF_RULESET"], rule.tags⟩ := by
      simp [keywordPhase, hh]
    have h2 : keywordPhase ctx rules al dc ⟨dc, false, [], []⟩ =
        ⟨match rule.category with
         | some c2 => (resolve_allowed_category al (pyStrip c2)).getD dc
         | none => dc, true, [], rule.tags⟩ := by
      simp [keywordPhase, hh]
    rw [h1, h2]
    exact post_fields_cons ctx rules al dc _ true [] rule.tags

/-- Erasing the explicit caption category does not change the keyword phase,
which never reads it. -/
theorem keywordPhase_erase_explicit (ctx : RuleInput) (rules : Rules)
    (al : List (Str × Str)) (dc : Str) (s : EngineSeed) :
    keywordPhase { ctx with caption := { ctx.caption with explicit_category := none } }
      rules al dc s = keywordPhase ctx rules al dc s := rfl

/-- Erasing the explicit caption category does not change the post phase,
which never reads it. -/
theorem applyRulesPost_erase_explicit (ctx : RuleInput) (rules : Rules)
    (al : List (Str × Str)) (dc : Str) (s : EngineSeed) :
    applyRulesPost { ctx with caption := { ctx.caption with explicit_category := none } }
      rules al dc s = applyRulesPost ctx rules al dc s := rfl

/-- C5 counterexample: with the repository's unit-test ruleset, the caption
`회의 제목\n설명\n#분류:계약` carries the explicit category 계약, which is not in
the ruleset, so CATEGORY_OUT_OF_RULESET is recorded — yet the keyword rules
still classify the document as 회의, not the default category 기타, refuting
"the resulting category is default_category". -/
theorem C5_counterexample :
    (apply_rules (testCtx "회의 제목\n설명\n#분류:계약" "a.pdf") testRules).review_reasons.head? =
      some (strOf "CATEGORY_OUT_OF_RULESET") ∧
    (apply_rules (testCtx "회의 제목\n설명\n#분류:계약" "a.pdf") testRules).category =
      strOf "회의" ∧
    (defaultAndAllowed testRules).1 = strOf "기타" := by
  decide

/-- C5 (amended): for every rule-engine input whose caption carries an
explicit category that is non-blank after stripping, the explicit category is
used as the resulting category if and only if its case-insensitive,
whitespace-collapsed normalization is a key of the ruleset's allowed category
map (the canonical allowed name is returned, and exactly then does the output
category normalize to the explicit key); and whenever the explicit category
is present but rejected, CATEGORY_OUT_OF_RULESET is prepended to
review_reasons and the run otherwise proceeds exactly as if no explicit
category had been given — so the category comes from the keyword and tag
rules, falling back to default_category, rather than being default_category
outright. -/
theorem C5_explicit_category_amended (ctx : RuleInput) (rules : Rules) (c : Str)
    (hc : ctx.caption.explicit_category = some c) (hs : pyStrip c ≠ []) :
    (∀ v, lookupA (normalize_tag_key (pyStrip c)) (defaultAndAllowed rules).2 = some v →
      (apply_rules ctx rules).category = v) ∧
    ((lookupA (normalize_tag_key (pyStrip c)) (defaultAndAllowed rules).2).isSome ↔
      normalize_tag_key (apply_rules ctx rules).category = normalize_tag_key (pyStrip c)) ∧
    (lookupA (normalize_tag_key (pyStrip c)) (defaultAndAllowed rules).2 = none →
      (apply_rules ctx rules).review_reasons =
        strOf "CATEGORY_OUT_OF_RULESET" ::
          (apply_rules { ctx with caption :=
            { ctx.caption with explicit_category := none } } rules).review_reasons ∧
      (apply_rules ctx rules).category =
        (apply_rules { ctx with caption :=
          { ctx.caption with explicit_category := none } } rules).category ∧
      (apply_rules ctx rules).tags =
        (apply_rules { ctx with caption :=
          { ctx.caption with explicit_category := none } } rules).tags ∧
      (apply_rules ctx rules).event_date =
        (apply_rules { ctx with caption :=
          { ctx.caption with explicit_category := none } } rules).event_date) := by
  have hcne : c ≠ [] := fun h => hs (by rw [h]; decide)
  have hresolve : resolve_allowed_category (defaultAndAllowed rules).2 (pyStrip c) =
      lookupA (normalize_tag_key (pyStrip c)) (defaultAndAllowed rules).2 := by
    simp only [resolve_allowed_category, if_neg hs]
  rcases hlook : lookupA (normalize_tag_key (pyStrip c)) (defaultAndAllowed rules).2 with _ | v
  · -- the explicit category is rejected
    have hseed : explicitCategorySeed (defaultAndAllowed rules).2 (defaultAndAllowed rules).1
        ctx.caption.explicit_category =
        ⟨(defaultAndAllowed rules).1, false, [strOf "CATEGORY_OUT_OF_RULESET"], []⟩ := by
      rw [hc]
      simp only [explicitCategorySeed]
      rw [if_pos hcne, hresolve, hlook]
    refine ⟨?_, ?_, ?_⟩
    · intro v hv
      exact Option.noConfusion hv
    · simp only [Option.isSome_none]
      constructor
      · intro h
        exact absurd h (by simp)
      · intro hEq
        obtain ⟨k, hk⟩ := apply_rules_category_mem ctx rules
        have hnorm := allowed_key_inv rules _ hk
        have hmem2 : (normalize_tag_key (pyStrip c), (apply_rules ctx rules).category) ∈
            (defaultAndAllowed rules).2 := by
          rw [← hEq, hnorm]
          exact hk
        have hsome := lookupA_isSome_of_mem hmem2
        rw [hlook] at hsome
        exact absurd hsome (by simp)
    · intro _
      have hout1 : apply_rules ctx rules =
          applyRulesPost ctx rules (defaultAndAllowed rules).2 (defaultAndAllowed rules).1
            (keywordPhase ctx rules (defaultAndAllowed rules).2 (defaultAndAllowed rules).1
              ⟨(defaultAndAllowed rules).1, false, [strOf "CATEGORY_OUT_OF_RULESET"], []⟩) := by
        rw [apply_rules_eq_post, hseed]
      have hout2 : apply_rules { ctx with caption :=
          { ctx.caption with explicit_category := none } } rules =
          applyRulesPost ctx rules (defaultAndAllowed rules).2 (defaultAndAllowed rules).1
            (keywordPhase ctx rules (defaultAndAllowed rules).2 (defaultAndAllowed rules).1
              ⟨(defaultAndAllowed rules).1, false, [], []⟩) := by
        have h0 : apply_rules { ctx with caption :=
            { ctx.caption with explicit_category := none } } rules =
            applyRulesPost { ctx with caption := { ctx.caption with explicit_category := none } }
              rules (defaultAndAllowed rules).2 (defaultAndAllowed rules).1
              (keywordPhase { ctx with caption := { ctx.caption with explicit_category := none } }
                rules (defaultAndAllowed rules).2 (defaultAndAllowed rules).1
                ⟨(defaultAndAllowed rules).1, false, [], []⟩) := rfl
        rw [h0, keywordPhase_erase_explicit, applyRulesPost_erase_explicit]
      rw [hout1, hout2]
      exact post_keyword_cons ctx rules (defaultAndAllowed rules).2 (defaultAndAllowed rules).1
  · -- the explicit category is accepted
    have hseed : explicitCategorySeed (defaultAndAllowed rules).2 (defaultAndAllowed rules).1
        ctx.caption.explicit_category = ⟨v, true, [], []⟩ := by
      rw [hc]
      simp only [explicitCategorySeed]
      rw [if_pos hcne, hresolve, hlook]
    have hcat : (apply_rules ctx rules).category = v := by
      rw [apply_rules_eq_post, hseed,
        keywordPhase_resolved ctx rules (defaultAndAllowed rules).2 (defaultAndAllowed rules).1
          ⟨v, true, [], []⟩ rfl]
      exact applyRulesPost_category_resolved ctx rules (defaultAndAllowed rules).2
        (defaultAndAllowed rules).1 ⟨v, true, [], []⟩ rfl
    refine ⟨?_, ?_, ?_⟩
    · intro v2 hv2
      injection hv2 with h
      rw [hcat, h]
    · simp only [Option.isSome_some]
      constructor
      · intro _
        rw [hcat]
        exact allowed_key_inv rules _ (lookupA_mem hlook)
      · intro _
        trivial
    · intro hnone
      exact Option.noConfusion hnone

/-- Witness: the unit-test caption `제목\n설명\n#분류:회의` names the allowed
category 회의 explicitly, satisfying the amended theorem's hypotheses, and the
acceptance iff holds there. -/
theorem C5_explicit_category_amended_witness :
    (testCtx "제목\n설명\n#분류:회의" "a.pdf").caption.explicit_category =
      some (strOf "회의") ∧
    pyStrip (strOf "회의") ≠ [] ∧
    ((lookupA (normalize_tag_key (pyStrip (strOf "회의"))) (defaultAndAllowed testRules).2).isSome ↔
      normalize_tag_key
          (apply_rules (testCtx "제목\n설명\n#분류:회의" "a.pdf") testRules).category =
        normalize_tag_key (pyStrip (strOf "회의"))) :=
  ⟨by decide, by decide,
    (C5_explicit_category_amended (testCtx "제목\n설명\n#분류:회의" "a.pdf") testRules
      (strOf "회의") (by decide) (by decide)).2.1⟩

end Archive










